import Mathlib

/-!
# Autograde: a shallow embedding of `grade.go` and `lab/javalab/javalab.go`

The development models the Java-lab grader of the repository:

* Go strings and byte buffers are lists of characters (`Str`).  For file names an
  element is a rune; for file contents and captured process output an element is
  one byte of the buffer.  The only character that the program's patterns single
  out is the line feed.
* The three regular expressions of `javalab.go` are values of an abstract syntax
  (`Regex`) run by a backtracking matcher with Go's leftmost-first preference,
  and `ReplaceAllString`, `MatchString` and `FindString` follow the loops of
  Go's `regexp` package.
* The operating system (files, directories, child processes) is an oracle `Env`;
  the report writer and the launches of child processes are explicit state (`Run`).
* A panic ends a call (`Outcome.panic`, `Ended.panicked`).
* Unbounded `for` loops take fuel and return `none` when it runs out.
-/

namespace Autograde

/-- Text: a Go `string` or `[]byte`, as the list of its elements. -/
abbrev Str := List Char

/-! ## Regular expressions (the fragment of Go's `regexp` that the program uses) -/

/-- Abstract syntax of the regular expressions occurring in `javalab.go`. -/
inductive Regex where
  /-- A literal string, such as `zip` or `Lab`. -/
  | lit (cs : Str)
  /-- The dot `.`: any character but the line feed (no `s` flag is set). -/
  | anyNotNL
  /-- The dollar `$`: end of text (no `m` flag is set). -/
  | endText
  /-- Concatenation. -/
  | seq (a b : Regex)
  /-- Alternation `a|b`, preferring `a`. -/
  | alt (a b : Regex)
  /-- Greedy repetition `a*`. -/
  | star (a : Regex)
  /-- Lazy repetition `a*?`. -/
  | lazyStar (a : Regex)
  /-- A capturing group `(a)`; only whole matches are used by the program. -/
  | group (a : Regex)

/-- Result of a backtracking run: out of fuel, no match, or the text left after the match. -/
inductive Res where
  | oof
  | fail
  | ok (rest : Str)
deriving DecidableEq

/-- Backtracking matcher with a continuation.  Go's `regexp` returns, among the matches
that start at a position, "the one that a backtracking search would have found first";
this function is that search.  An iteration of a star that consumes nothing is cut. -/
def Regex.run : Nat → Regex → Str → (Str → Res) → Res
  | 0, _, _, _ => .oof
  | _ + 1, .lit cs, s, k => if cs.isPrefixOf s then k (s.drop cs.length) else .fail
  | _ + 1, .anyNotNL, s, k =>
    match s with
    | x :: xs => if x = '\n' then .fail else k xs
    | [] => .fail
  | _ + 1, .endText, s, k =>
    match s with
    | [] => k []
    | _ :: _ => .fail
  | n + 1, .seq a b, s, k => Regex.run n a s (fun s1 => Regex.run n b s1 k)
  | n + 1, .alt a b, s, k =>
    match Regex.run n a s k with
    | .fail => Regex.run n b s k
    | r => r
  | n + 1, .star a, s, k =>
    match Regex.run n a s (fun s1 =>
        if s1.length < s.length then Regex.run n (.star a) s1 k else .fail) with
    | .fail => k s
    | r => r
  | n + 1, .lazyStar a, s, k =>
    match k s with
    | .fail => Regex.run n a s (fun s1 =>
        if s1.length < s.length then Regex.run n (.lazyStar a) s1 k else .fail)
    | r => r
  | n + 1, .group a, s, k => Regex.run n a s k

/-- Number of nodes of a regular expression. -/
def Regex.size : Regex → Nat
  | .lit _ => 1
  | .anyNotNL => 1
  | .endText => 1
  | .seq a b => a.size + b.size + 1
  | .alt a b => a.size + b.size + 1
  | .star a => a.size + 1
  | .lazyStar a => a.size + 1
  | .group a => a.size + 1

/-- Match at the very start of `s`: the text that follows the match, if there is one. -/
def Regex.matchAt (re : Regex) (s : Str) : Option Str :=
  match re.run (re.size + s.length + 1) s Res.ok with
  | .ok rest => some rest
  | _ => none

/-- Leftmost match in the suffix `s` that begins at offset `off` of the whole text:
the positions `(start, end)` of the match. -/
def Regex.searchFrom (re : Regex) : Str → Nat → Option (Nat × Nat)
  | [], off =>
    match re.matchAt [] with
    | some _ => some (off, off)
    | none => none
  | c :: t, off =>
    match re.matchAt (c :: t) with
    | some rest => some (off, off + ((c :: t).length - rest.length))
    | none => Regex.searchFrom re t (off + 1)

/-- Go's `doExecute(src, pos)`: the leftmost match of `re` in `src` at or after `pos`. -/
def Regex.doExecute (re : Regex) (src : Str) (pos : Nat) : Option (Nat × Nat) :=
  re.searchFrom (src.drop pos) pos

/-- The Go slice expression `s[a:b]`. -/
def slice (s : Str) (a b : Nat) : Str := (s.drop a).take (b - a)

/-- Go's `(*Regexp).MatchString`. -/
def Regex.MatchString (re : Regex) (s : Str) : Bool := (re.doExecute s 0).isSome

/-- Go's `(*Regexp).FindString`: the text of the leftmost match, or the empty string. -/
def Regex.FindString (re : Regex) (s : Str) : Str :=
  match re.doExecute s 0 with
  | some (a0, a1) => slice s a0 a1
  | none => []

/-- The loop of Go's `(*Regexp).replaceAll`, with its variables `lastMatchEnd`,
`searchPos` and `buf`.  `repl` maps the text of a match to its replacement.  The
replacement is not inserted for an empty match that abuts the preceding match.
`width` is the width of the element at `searchPos`, 1 inside the text and 0 at its end;
it only matters after an empty match, which the patterns of the program find in front of
a line feed or at the end of the text, where Go decodes a rune of that width too. -/
def Regex.replaceAllLoop (re : Regex) (src : Str) (repl : Str → Str) :
    Nat → Nat → Nat → Str → Str
  | 0, lastMatchEnd, _, buf => buf ++ src.drop lastMatchEnd
  | fuel + 1, lastMatchEnd, searchPos, buf =>
    if searchPos ≤ src.length then
      match re.doExecute src searchPos with
      | none => buf ++ src.drop lastMatchEnd
      | some (a0, a1) =>
        let buf1 := buf ++ slice src lastMatchEnd a0
        let buf2 := if a1 > lastMatchEnd ∨ a0 = 0 then buf1 ++ repl (slice src a0 a1) else buf1
        let width := if searchPos < src.length then 1 else 0
        let next :=
          if searchPos + width > a1 then searchPos + width
          else if searchPos + 1 > a1 then searchPos + 1
          else a1
        Regex.replaceAllLoop re src repl fuel a1 next buf2
    else buf ++ src.drop lastMatchEnd

/-- Go's `(*Regexp).ReplaceAllString`.  `searchPos` grows in every round and the loop
stops once it exceeds the length, so `src.length + 2` rounds are never used up. -/
def Regex.ReplaceAllString (re : Regex) (src : Str) (repl : Str → Str) : Str :=
  re.replaceAllLoop src repl (src.length + 2) 0 0 []

/-! ## The patterns of `javalab.go` -/

/-- The pattern `.*` of `rxAddTab`, compiled in `init`. -/
def rxAddTab : Regex := .star .anyNotNL

/-- The pattern `.zip$` of `New`: the dot is not escaped. -/
def rxZip : Regex := .seq .anyNotNL (.seq (.lit "zip".toList) .endText)

/-- The pattern `(Lab.*?)$|(Midterm.*?)$` of `New`. -/
def rxLab : Regex :=
  .alt (.seq (.group (.seq (.lit "Lab".toList) (.lazyStar .anyNotNL))) .endText)
       (.seq (.group (.seq (.lit "Midterm".toList) (.lazyStar .anyNotNL))) .endText)

/-- The function `indent`: `rxAddTab.ReplaceAllString(text, "\t$0")`; the template is a
tab followed by the whole match. -/
def indent (text : Str) : Str := rxAddTab.ReplaceAllString text (fun m => '\t' :: m)

/-! ## The operating system -/

/-- A Go `error` value. -/
structure GoError where
  msg : Str
deriving DecidableEq

/-- An entry of a directory listing (`os.FileInfo`). -/
structure FileInfo where
  name : Str
  isDir : Bool
deriving DecidableEq

/-- A command built by `exec.Command`. -/
structure Cmd where
  name : Str
  args : List Str
deriving DecidableEq

/-- What a finished child process leaves: its combined output and the error of
`Run`, `CombinedOutput` or `Wait` (`none` for `nil`). -/
structure ExecResult where
  out : Str
  err : Option GoError

/-- The answers of the operating system, fixed for the duration of a call. -/
structure Env where
  /-- Function `ioutil.ReadFile`. -/
  readFile : Str → Except GoError Str
  /-- Function `ioutil.ReadDir`. -/
  readDir : Str → Except GoError (List FileInfo)
  /-- Running a command to its end, with the text fed to its standard input if any. -/
  exec : Cmd → Option Str → ExecResult
  /-- Function `os.Create`: the error, if the file cannot be created. -/
  create : Str → Option GoError
  /-- Method `(*Cmd).StdinPipe` on a fresh command: the error, if the pipe cannot be
  created. -/
  stdinPipe : Cmd → Option GoError
  /-- Method `(*Cmd).Start`: the error, if the process cannot be started. -/
  start : Cmd → Option GoError
  /-- Method `(*Cmd).Wait` on a started process, with the text fed to its standard input
  if any: what the process wrote to the buffer and the error of `Wait` (a non-zero exit,
  or the kill after `CommandTimeout`). -/
  wait : Cmd → Option Str → ExecResult

/-! ## `javalab.New` -/

/-- The struct `JavaLab` (the embedded logger writes to standard error only). -/
structure JavaLab where
  zipFileName : Str
  labFolderName : Str
  extractPath : Str
  labName : Str
  templateFolderName : Str
  secPolicyPath : Str
deriving DecidableEq

/-- How a call ends: a value, a returned error, or a panic. -/
inductive Outcome (α : Type) where
  | ok (v : α)
  | error (e : GoError)
  | panic (msg : Str)
deriving DecidableEq

/-- The message of the panic in `New`. -/
def newPanicMsg : Str :=
  ("ZipFileName must be of format \"%%sLab%%s\" (or %%sMidterm) where the string " ++
   "before \"Lab\" is the student name, and the string after " ++
   " and including \"Lab\" is the lab name. (ex. RuskLabOne.zip) ").toList

/-- The constructor `New`. -/
def New (env : Env) (zipFileName secPolicyPath : Str) : Outcome JavaLab :=
  match env.readFile zipFileName with
  | .error e => .error e
  | .ok _ =>
    let labFolderName := rxZip.ReplaceAllString zipFileName (fun _ => [])
    if !rxLab.MatchString labFolderName then .panic newPanicMsg
    else
      let labName := rxLab.FindString labFolderName
      let extractPath := labFolderName
      let labFolderName1 := labFolderName ++ "/".toList ++ labName
      let templateFolderName := "LabTemplate".toList ++ "/".toList ++ labName
      .ok { zipFileName := zipFileName, labFolderName := labFolderName1,
            extractPath := extractPath, labName := labName,
            secPolicyPath := secPolicyPath, templateFolderName := templateFolderName }

/-! ## `JavaLab.Build` -/

/-- The format `questionSrcFolder`, `"%v/src/edu/carrollcc/cis132/"`, applied to a folder. -/
def questionSrcFolder (folder : Str) : Str := folder ++ "/src/edu/carrollcc/cis132/".toList

/-- The command `unzip -u <zip> -d <extractPath>` of `Build`. -/
def unzipCmd (j : JavaLab) : Cmd :=
  { name := "unzip".toList, args := ["-u".toList, j.zipFileName, "-d".toList, j.extractPath] }

/-- The command `cp -rf <lab sources> <template sources>` of `Build`. -/
def cpCmd (j : JavaLab) : Cmd :=
  { name := "cp".toList,
    args := ["-rf".toList, questionSrcFolder j.labFolderName,
             questionSrcFolder j.templateFolderName] }

/-- The command `ant -f <template>/build.xml` of `Build`. -/
def antCmd (j : JavaLab) : Cmd :=
  { name := "ant".toList, args := ["-f".toList, j.templateFolderName ++ "/build.xml".toList] }

/-- The method `Build`; the result is the returned `err` (`none` for `nil`).  The error of
`unzip` is stored in `err` and the test that returned it is commented out in the source,
so the assignment from `cp` overwrites it. -/
def Build (env : Env) (j : JavaLab) : Option GoError :=
  let _unzipErr := (env.exec (unzipCmd j) none).err
  let cpErr := (env.exec (cpCmd j) none).err
  if cpErr ≠ none then cpErr
  else (env.exec (antCmd j) none).err

/-! ## The report writer and the started processes -/

/-- A call that launches a child process while questions are run. -/
inductive Event where
  /-- A call of `CombinedOutput` on a script `./q<N>in<M>.sh` or `./q<N>out<M>.sh`. -/
  | script (cmd : Cmd)
  /-- A call of `Start` that started the `java` process of question `questionNum` for
  input `inputNum`, with the input text handed to the goroutine that feeds standard input
  (`none`: nothing is fed). -/
  | question (questionNum inputNum : Nat) (cmd : Cmd) (stdin : Option Str)
  /-- A call of `Start` for question `questionNum` and input `inputNum` that returned an
  error: no process runs. -/
  | notStarted (questionNum inputNum : Nat) (cmd : Cmd)
deriving DecidableEq

/-- State of `RunAndReport`: the text handed to `gradeReportWriter` so far and the
launches of child processes so far. -/
structure Run where
  report : Str
  log : List Event
deriving DecidableEq

/-- Method `gradeReportWriter.WriteString`. -/
def Run.writeString (st : Run) (s : Str) : Run := { st with report := st.report ++ s }

/-- Record a launch. -/
def Run.started (st : Run) (e : Event) : Run := { st with log := st.log ++ [e] }

/-- The verb `%d` of `fmt.Sprintf` for a non-negative `int`. -/
def decimal (n : Nat) : Str := Nat.toDigits 10 n

/-- The method `getQuestionFile`. -/
def getQuestionFile (j : JavaLab) (questionNum : Nat) : Str :=
  j.labFolderName ++ "/src/edu/carrollcc/cis132/Question".toList ++ decimal questionNum ++
    ".java".toList

/-- The method `getQuestionPackagePath`. -/
def getQuestionPackagePath (j : JavaLab) (questionNum : Nat) : Str :=
  j.labFolderName ++ "/src/edu/carrollcc/cis132/q".toList ++ decimal questionNum

/-- The method `writeSource`. -/
def writeSource (questionSrc fileName : Str) (st : Run) : Run :=
  ((st.writeString ("## ".toList ++ fileName ++ " Source Code\n".toList)).writeString
    "\n".toList |>.writeString (indent questionSrc)).writeString "\n".toList

/-- The function `strings.Trim(s, " ")`: leading and trailing spaces removed. -/
def trimSpaces (s : Str) : Str :=
  ((s.dropWhile (fun c => c == ' ')).reverse.dropWhile (fun c => c == ' ')).reverse

/-- Name of the input script of a question, `q%din%d.sh`. -/
def inputScriptName (questionNum inputNum : Nat) : Str :=
  "q".toList ++ decimal questionNum ++ "in".toList ++ decimal inputNum ++ ".sh".toList

/-- Name of the output script of a question, `q%dout%d.sh`. -/
def outputScriptName (questionNum inputNum : Nat) : Str :=
  "q".toList ++ decimal questionNum ++ "out".toList ++ decimal inputNum ++ ".sh".toList

/-- The function `inputScript`. -/
def inputScript (env : Env) (questionNum inputNum : Nat) : Except GoError Cmd :=
  match env.readFile (inputScriptName questionNum inputNum) with
  | .error e => .error e
  | .ok _ => .ok { name := "./".toList ++ inputScriptName questionNum inputNum, args := [] }

/-- The function `outputScript`. -/
def outputScript (env : Env) (questionNum inputNum : Nat) : Except GoError Cmd :=
  match env.readFile (outputScriptName questionNum inputNum) with
  | .error e => .error e
  | .ok _ => .ok { name := "./".toList ++ outputScriptName questionNum inputNum, args := [] }

/-- The function `inputFile`: reads `q%din%d.txt`. -/
def inputFile (env : Env) (questionNum inputNum : Nat) : Except GoError Str :=
  env.readFile ("q".toList ++ decimal questionNum ++ "in".toList ++ decimal inputNum ++
    ".txt".toList)

/-- The function `outputFile`: reads `q%dout%d.txt`. -/
def outputFile (env : Env) (questionNum inputNum : Nat) : Except GoError Str :=
  env.readFile ("q".toList ++ decimal questionNum ++ "out".toList ++ decimal inputNum ++
    ".txt".toList)

/-- The function `rubricFile`: reads `q%drubric.txt`. -/
def rubricFile (env : Env) (questionNum : Nat) : Except GoError Str :=
  env.readFile ("q".toList ++ decimal questionNum ++ "rubric.txt".toList)

/-! ## `JavaLab.runQuestion` -/

/-- Lines 216-229 of `runQuestion`: run the input script, if there is one, and show what
it printed. -/
def runInputScript (env : Env) (questionNum inputNum : Nat) (st : Run) : Run :=
  match inputScript env questionNum inputNum with
  | .error _ => st
  | .ok inputCmd =>
    let cmdOut := (env.exec inputCmd none).out
    let st1 := st.started (.script inputCmd)
    if (trimSpaces cmdOut).length > 0 then
      (st1.writeString ("\n## Input File #".toList ++ decimal inputNum ++ "\n".toList)).writeString
        (indent cmdOut)
    else st1

/-- Lines 310-324 of `runQuestion`: run the output script, if there is one, and show what
it printed. -/
def runOutputScript (env : Env) (questionNum inputNum : Nat) (st : Run) : Run :=
  match outputScript env questionNum inputNum with
  | .error _ => st
  | .ok outputCmd =>
    let cmdOut := (env.exec outputCmd none).out
    let st1 := st.started (.script outputCmd)
    if (trimSpaces cmdOut).length > 0 then
      ((st1.writeString ("\n## Output File #".toList ++ decimal inputNum ++ "\n".toList)).writeString
        (indent cmdOut)).writeString "\n\n\n".toList
    else st1

/-- The command that runs a question under the security manager. -/
def questionCmd (j : JavaLab) (questionNum : Nat) : Cmd :=
  { name := "java".toList,
    args := ["-Djava.security.manager".toList,
             "-Djava.security.policy=".toList ++ j.secPolicyPath,
             "-cp".toList,
             j.templateFolderName ++ "/dist/".toList ++ j.labName ++ ".jar".toList,
             "edu.carrollcc.cis132.Question".toList ++ decimal questionNum] }

/-- The marker that `runQuestion` appends to the captured output of a failed run. -/
def failureMarker : Str := "\nExecution failed.".toList

/-- Lines 284-289: the buffer `questionOutput` once `Wait` has returned. -/
def capturedOutput (r : ExecResult) : Str :=
  match r.err with
  | some _ => r.out ++ failureMarker
  | none => r.out

/-- Lines 301-306: `truncatedOutput`, the first 5000 elements of the buffer. -/
def truncatedOutput (questionOutput : Str) : Str :=
  if questionOutput.length > 5000 then questionOutput.take 5000 else questionOutput

/-- Lines 260-264: show the input text that is fed to the question, if there is one. -/
def writeStdin (inputNum : Nat) (input : Option Str) (st : Run) : Run :=
  match input with
  | some inputText =>
    (st.writeString ("\n## Stdin Buffer #".toList ++ decimal inputNum ++ "\n".toList)).writeString
      (indent inputText)
  | none => st

/-- Lines 291-297: show the expected output, if `q<N>out<M>.txt` can be read. -/
def writeExpected (env : Env) (questionNum inputNum : Nat) (st : Run) : Run :=
  match outputFile env questionNum inputNum with
  | .ok outputText =>
    (st.writeString ("\n## Expected Execution Output #".toList ++ decimal inputNum ++
      "\n".toList)).writeString (indent outputText)
  | .error _ => st

/-- Lines 299-308: show the captured output, truncated and indented. -/
def writeActual (inputNum : Nat) (questionOutput : Str) (st : Run) : Run :=
  ((st.writeString ("\n## Actual Execution Output #".toList ++ decimal inputNum ++
    "\n".toList)).writeString (indent (truncatedOutput questionOutput))).writeString
    "\n\n\n".toList

/-- How a call that returns no error value ends: normally, or in a panic. -/
inductive Ended (α : Type) where
  | done (v : α)
  | panicked (msg : Str)
deriving DecidableEq

/-- The error of `Wait` on a command that was not started. -/
def errNotStarted : GoError := { msg := "exec: not started".toList }

/-- Lines 247-289: the buffer `questionOutput` once `Wait` has returned.  When `Start`
fails no process runs, the buffer stays empty and `Wait` fails in turn. -/
def questionOutput (env : Env) (cmd : Cmd) (input : Option Str) : Str :=
  match env.start cmd with
  | none => capturedOutput (env.wait cmd input)
  | some _ => capturedOutput { out := [], err := some errNotStarted }

/-- Lines 255-326 of `runQuestion`, once the pipe to standard input exists: one run of
the question program for the input text `input` (`none` when `q<N>in<M>.txt` cannot be
read).  An error of `Start` is logged and the run goes on.  The timer of line 278 is part
of the answer of `wait`; a timer that fires on a command that was not started is not
modelled. -/
def runInputBody (env : Env) (j : JavaLab) (questionNum inputNum : Nat) (input : Option Str)
    (st : Run) : Run :=
  let st1 :=
    match env.start (questionCmd j questionNum) with
    | none => st.started (.question questionNum inputNum (questionCmd j questionNum) input)
    | some _ => st.started (.notStarted questionNum inputNum (questionCmd j questionNum))
  let st2 := writeStdin inputNum input st1
  let st3 := writeExpected env questionNum inputNum st2
  let st4 := writeActual inputNum (questionOutput env (questionCmd j questionNum) input) st3
  runOutputScript env questionNum inputNum st4

/-- Lines 241-326 of `runQuestion`: the command is built, `StdinPipe` is called, and an
error of `StdinPipe` is a panic (lines 250-253). -/
def runInput (env : Env) (j : JavaLab) (questionNum inputNum : Nat) (input : Option Str)
    (st : Run) : Ended Run :=
  match env.stdinPipe (questionCmd j questionNum) with
  | some e => .panicked e.msg
  | none => .done (runInputBody env j questionNum inputNum input st)

/-- The loop over the inputs of a question (lines 215-327), from input `inputNum` on. -/
def runQuestionLoop (env : Env) (j : JavaLab) (questionNum : Nat) :
    Nat → Nat → Run → Option (Ended Run)
  | 0, _, _ => none
  | fuel + 1, inputNum, st =>
    let st1 := runInputScript env questionNum inputNum st
    match inputFile env questionNum inputNum with
    | .error _ =>
      if inputNum > 0 then some (.done st1)
      else
        match runInput env j questionNum inputNum none st1 with
        | .done st2 => runQuestionLoop env j questionNum fuel (inputNum + 1) st2
        | .panicked msg => some (.panicked msg)
    | .ok inputText =>
      match runInput env j questionNum inputNum (some inputText) st1 with
      | .done st2 => runQuestionLoop env j questionNum fuel (inputNum + 1) st2
      | .panicked msg => some (.panicked msg)

/-- The grading area written by default (lines 337-338). -/
def defaultGrading : Str := "\nPoints: TOGRADE\n".toList ++ "\nFeedback: TOGRADE\n\n".toList

/-- Lines 329-341 of `runQuestion`: the grading area. -/
def writeGrading (env : Env) (questionNum : Nat) (st : Run) : Run :=
  match rubricFile env questionNum with
  | .ok rubricText => (st.writeString rubricText).writeString "\n".toList
  | .error _ => (st.writeString "\nPoints: TOGRADE\n".toList).writeString
      "\nFeedback: TOGRADE\n\n".toList

/-- The method `runQuestion`. -/
def runQuestion (env : Env) (j : JavaLab) (questionNum : Nat) (fuel : Nat) (st : Run) :
    Option (Ended Run) :=
  match runQuestionLoop env j questionNum fuel 0 st with
  | none => none
  | some (.done st1) => some (.done (writeGrading env questionNum st1))
  | some (.panicked msg) => some (.panicked msg)

/-! ## `JavaLab.RunAndReport` -/

/-- Body of the loop over the files of the package directory (lines 163-175). -/
def writePackageFile (env : Env) (classPackageDir : Str) (st : Run) (f : FileInfo) : Run :=
  if !f.isDir then
    if (".java".toList).isSuffixOf f.name then
      match env.readFile (classPackageDir ++ "/".toList ++ f.name) with
      | .error _ => st
      | .ok src => writeSource src f.name st
    else st
  else st

/-- Lines 152-154: the header of a question and its source file. -/
def writeQuestionHeader (questionNum : Nat) (questionSrc : Str) (st : Run) : Run :=
  writeSource questionSrc ("Question".toList ++ decimal questionNum ++ ".java".toList)
    (st.writeString ("# Question ".toList ++ decimal questionNum ++ "\n".toList))

/-- The loop over the questions (lines 142-179), from question `questionNum` on.  `inner`
is the fuel handed to every call of `runQuestion`. -/
def questionsLoop (env : Env) (j : JavaLab) (inner : Nat) :
    Nat → Nat → Run → Option (Ended Run)
  | 0, _, _ => none
  | fuel + 1, questionNum, st =>
    match env.readFile (getQuestionFile j questionNum) with
    | .error _ => some (.done st)
    | .ok questionSrc =>
      let st2 := writeQuestionHeader questionNum questionSrc st
      let classPackageDir := getQuestionPackagePath j questionNum
      match env.readDir classPackageDir with
      | .error _ => some (.done st2)
      | .ok classPackageFileInfos =>
        let st3 := classPackageFileInfos.foldl (writePackageFile env classPackageDir) st2
        match runQuestion env j questionNum inner st3 with
        | none => none
        | some (.done st4) => questionsLoop env j inner fuel (questionNum + 1) st4
        | some (.panicked msg) => some (.panicked msg)

/-- The path of the report, `output/<extractPath>.md`. -/
def gradeReportName (j : JavaLab) : Str := "output/".toList ++ j.extractPath ++ ".md".toList

/-- The Summary block that ends the report. -/
def summaryBlock : Str := "\n\n# Summary\n".toList ++ "\n Total Points: TOGRADE\n".toList

/-- What `RunAndReport` leaves: the path it created, the returned error (that of
`os.Create`), the text handed to the writer and the processes it started. -/
structure Report where
  gradeReportName : Str
  err : Option GoError
  run : Run
deriving DecidableEq

/-- The method `RunAndReport`.  `fuel` bounds the rounds of each loop; a panic of
`runQuestion` ends the call. -/
def RunAndReport (env : Env) (j : JavaLab) (fuel : Nat) : Option (Ended Report) :=
  match questionsLoop env j fuel fuel 1 { report := [], log := [] } with
  | none => none
  | some (.done st) =>
    some (.done { gradeReportName := gradeReportName j,
                  err := env.create (gradeReportName j),
                  run := (st.writeString "\n\n# Summary\n".toList).writeString
                    "\n Total Points: TOGRADE\n".toList })
  | some (.panicked msg) => some (.panicked msg)

/-! ## `JavaLab.CleanUp` and `main` -/

/-- The method `getTemplateSrcPath`. -/
def getTemplateSrcPath (j : JavaLab) : Str := questionSrcFolder j.templateFolderName

/-- The method `CleanUp`: the returned `err`. -/
def CleanUp (env : Env) (j : JavaLab) : Option GoError :=
  let err := (env.exec { name := "rm".toList,
                         args := ["-rf".toList, j.extractPath ++ "/".toList] } none).err
  if err ≠ none then err
  else (env.exec { name := "rm".toList, args := ["-rf".toList, getTemplateSrcPath j] } none).err

/-- How `main` ends. -/
inductive Exit where
  /-- The number of arguments is wrong: the usage line is printed. -/
  | usage
  /-- The function `check` met an error: `log.Fatal` ends the process. -/
  | fatal (e : GoError)
  /-- A panic. -/
  | panic (msg : Str)
  /-- The report is written and handed to the editor. -/
  | done (report : Report)
deriving DecidableEq

/-- The function `main` of `grade.go` on the arguments `os.Args`.  The error that
`RunAndReport` returns is overwritten by that of `CleanUp`; when the report file could
not be created, `gradeReportFile` is nil and `gradeReportFile.Name()` panics. -/
def main (env : Env) (osArgs : List Str) (fuel : Nat) : Option Exit :=
  match osArgs with
  | [_, zipFileName] =>
    match New env zipFileName "secpolicy".toList with
    | .error e => some (.fatal e)
    | .panic msg => some (.panic msg)
    | .ok studentLab =>
      match Build env studentLab with
      | some e => some (.fatal e)
      | none =>
        match RunAndReport env studentLab fuel with
        | none => none
        | some (.panicked msg) => some (.panic msg)
        | some (.done report) =>
          match CleanUp env studentLab with
          | some e => some (.fatal e)
          | none =>
            match report.err with
            | some _ =>
              some (.panic
                "runtime error: invalid memory address or nil pointer dereference".toList)
            | none => some (.done report)
  | _ => some .usage

/-! ## Auxiliary definitions used in the statements -/

/-- The insertion that `indent` performs after its leading tab: a tab after every line feed. -/
def tabAfterNL : Str → Str
  | [] => []
  | c :: t => if c = '\n' then '\n' :: '\t' :: tabAfterNL t else c :: tabAfterNL t

/-- The texts that `.zip$` matches from their first character on: any character but the
line feed, then `zip`, then the end. -/
def isAnyZip : Str → Bool
  | [c, 'z', 'i', 'p'] => c != '\n'
  | _ => false

/-- Some suffix of the text is matched by `.zip$`. -/
def hasZipTail : Str → Bool
  | [] => false
  | c :: t => isAnyZip (c :: t) || hasZipTail t

/-- The texts that `(Lab.*?)$|(Midterm.*?)$` matches from their first character on. -/
def isLabTail (s : Str) : Bool :=
  ("Lab".toList.isPrefixOf s || "Midterm".toList.isPrefixOf s) && s.all (fun c => c != '\n')

/-- The leftmost suffix of the text that `(Lab.*?)$|(Midterm.*?)$` matches, if any. -/
def labTail : Str → Option Str
  | [] => none
  | c :: t => if isLabTail (c :: t) then some (c :: t) else labTail t

/-! ## Concrete operating systems used in the examples -/

/-- An operating system in which every file reads as empty, every directory is empty,
every command succeeds without output and every file can be created. -/
def envQuiet : Env :=
  { readFile := fun _ => .ok [],
    readDir := fun _ => .ok [],
    exec := fun _ _ => { out := [], err := none },
    create := fun _ => none,
    stdinPipe := fun _ => none,
    start := fun _ => none,
    wait := fun _ _ => { out := [], err := none } }

/-- The lab that `New` builds from `RuskLabOne.zip` with the policy file `secpolicy`. -/
def labRusk : JavaLab :=
  { zipFileName := "RuskLabOne.zip".toList,
    labFolderName := "RuskLabOne/LabOne".toList,
    extractPath := "RuskLabOne".toList,
    labName := "LabOne".toList,
    templateFolderName := "LabTemplate/LabOne".toList,
    secPolicyPath := "secpolicy".toList }

/-- An operating system in which `unzip` fails while every other command succeeds. -/
def envUnzipFails : Env :=
  { readFile := fun _ => .ok [],
    readDir := fun _ => .ok [],
    exec := fun c _ =>
      if c.name = "unzip".toList then { out := [], err := some { msg := "exit status 9".toList } }
      else { out := [], err := none },
    create := fun _ => none,
    stdinPipe := fun _ => none,
    start := fun _ => none,
    wait := fun _ _ => { out := [], err := none } }

/-- An operating system in which `ant` fails while every other command succeeds. -/
def envAntFails : Env :=
  { readFile := fun _ => .ok [],
    readDir := fun _ => .ok [],
    exec := fun c _ =>
      if c.name = "ant".toList then { out := [], err := some { msg := "exit status 1".toList } }
      else { out := [], err := none },
    create := fun _ => none,
    stdinPipe := fun _ => none,
    start := fun _ => none,
    wait := fun _ _ => { out := [], err := none } }

/-- Deleting the first character of every line. -/
def unindent (s : Str) : Str := [ '\n' ].intercalate ((s.splitOn '\n').map (List.drop 1))

/-- The events of a log that are started runs of the question program. -/
def questionRuns (log : List Event) : List Event :=
  log.filter (fun e => match e with
    | .question _ _ _ _ => true
    | .notStarted _ _ _ => false
    | .script _ => false)

/-- The calls of `Start` for the question program in a log, successful or not: the
question number and the input number of each. -/
def startCalls (log : List Event) : List (Nat × Nat) :=
  log.filterMap (fun e => match e with
    | .question q i _ _ => some (q, i)
    | .notStarted q i _ => some (q, i)
    | .script _ => none)

/-- The text that `writeStdin` adds. -/
def stdinText (inputNum : Nat) (input : Option Str) : Str :=
  match input with
  | some inputText =>
    "\n## Stdin Buffer #".toList ++ decimal inputNum ++ "\n".toList ++ indent inputText
  | none => []

/-- The text that `writeExpected` adds. -/
def expectedText (env : Env) (questionNum inputNum : Nat) : Str :=
  match outputFile env questionNum inputNum with
  | .ok outputText =>
    "\n## Expected Execution Output #".toList ++ decimal inputNum ++ "\n".toList ++
      indent outputText
  | .error _ => []

/-- The text that `runOutputScript` adds. -/
def outputScriptText (env : Env) (questionNum inputNum : Nat) : Str :=
  match outputScript env questionNum inputNum with
  | .error _ => []
  | .ok outputCmd =>
    if (trimSpaces (env.exec outputCmd none).out).length > 0 then
      "\n## Output File #".toList ++ decimal inputNum ++ "\n".toList ++
        indent (env.exec outputCmd none).out ++ "\n\n\n".toList
    else []

/-- The header of the actual output of a run. -/
def actualHeader (inputNum : Nat) : Str :=
  "\n## Actual Execution Output #".toList ++ decimal inputNum ++ "\n".toList

/-- The UTF-8 encoding of a character, each byte as one element (Go's
`utf8.EncodeRune`). -/
def utf8Char (c : Char) : Str :=
  let v := c.toNat
  if v < 128 then [Char.ofNat v]
  else if v < 2048 then [Char.ofNat (192 + v / 64), Char.ofNat (128 + v % 64)]
  else if v < 65536 then
    [Char.ofNat (224 + v / 4096), Char.ofNat (128 + v / 64 % 64), Char.ofNat (128 + v % 64)]
  else
    [Char.ofNat (240 + v / 262144), Char.ofNat (128 + v / 4096 % 64),
     Char.ofNat (128 + v / 64 % 64), Char.ofNat (128 + v % 64)]

/-- The bytes of a text of characters in UTF-8, the encoding of Go strings. -/
def utf8Bytes (s : List Char) : Str := s.flatMap utf8Char

/-- The state after the inputs `0, ..., m - 1` of a question have been processed without
panic: for each, the input script step and then the run of the question program. -/
def inputsDone (env : Env) (j : JavaLab) (questionNum : Nat) : Nat → Run → Run
  | 0, st => st
  | m + 1, st =>
    runInputBody env j questionNum m (inputFile env questionNum m).toOption
      (runInputScript env questionNum m (inputsDone env j questionNum m st))

/-- The state in which `runQuestion` ends when the inputs of the question end at `k` and
no run panics: the inputs `0, ..., k - 1` done, the input script step of `k`, and the
grading area. -/
def runQuestionDone (env : Env) (j : JavaLab) (questionNum k : Nat) (st : Run) : Run :=
  writeGrading env questionNum
    (runInputScript env questionNum k (inputsDone env j questionNum k st))

/-- The text that `runInputScript` adds. -/
def inputScriptText (env : Env) (questionNum inputNum : Nat) : Str :=
  match inputScript env questionNum inputNum with
  | .error _ => []
  | .ok inputCmd =>
    if (trimSpaces (env.exec inputCmd none).out).length > 0 then
      "\n## Input File #".toList ++ decimal inputNum ++ "\n".toList ++
        indent (env.exec inputCmd none).out
    else []

/-- The operating system `env`, except that every run of the question program prints `o`
and its `Wait` returns the error `e`. -/
def failingRun (env : Env) (o : Str) (e : GoError) : Env :=
  { env with wait := fun _ _ => { out := o, err := some e } }

/-- The operating system `env`, except that every run of the question program prints `o`
and exits normally. -/
def passingRun (env : Env) (o : Str) : Env :=
  { env with wait := fun _ _ => { out := o, err := none } }

/-- The grading area of a question: the rubric and a line feed, or the default text. -/
def gradingArea (env : Env) (questionNum : Nat) : Str :=
  match rubricFile env questionNum with
  | .ok rubricText => rubricText ++ "\n".toList
  | .error _ => "\nPoints: TOGRADE\n".toList ++ "\nFeedback: TOGRADE\n\n".toList

/-- An operating system that holds the input files `q1in0.txt` and `q1in1.txt` and the
question file `RuskLabOne/LabOne/src/edu/carrollcc/cis132/Question1.java`, with an empty
package directory for every question; every command prints `ok`. -/
def envOneQuestion : Env :=
  { readFile := fun name =>
      if name = "q1in0.txt".toList then .ok "5\n".toList
      else if name = "q1in1.txt".toList then .ok "7\n".toList
      else if name = "RuskLabOne/LabOne/src/edu/carrollcc/cis132/Question1.java".toList then
        .ok "class Question1 \x7b\x7d".toList
      else .error { msg := "no such file".toList },
    readDir := fun _ => .ok [],
    exec := fun _ _ => { out := "ok".toList, err := none },
    create := fun _ => none,
    stdinPipe := fun _ => none,
    start := fun _ => none,
    wait := fun _ _ => { out := "ok".toList, err := none } }

/-- Lines 144-154 for one question: the header and the source, when the question file
can be read. -/
def headerDone (env : Env) (j : JavaLab) (questionNum : Nat) (st : Run) : Run :=
  match env.readFile (getQuestionFile j questionNum) with
  | .ok questionSrc => writeQuestionHeader questionNum questionSrc st
  | .error _ => st

/-- Lines 156-175 for one question: the sources of the package directory, when it can be
listed. -/
def packageDone (env : Env) (j : JavaLab) (questionNum : Nat) (st : Run) : Run :=
  match env.readDir (getQuestionPackagePath j questionNum) with
  | .ok infos => infos.foldl (writePackageFile env (getQuestionPackagePath j questionNum)) st
  | .error _ => st

/-- One whole round of the loop of `RunAndReport` for a question whose inputs end at
`inputs`: header and source, package sources, the runs, the grading area. -/
def questionDone (env : Env) (j : JavaLab) (inputs : Nat) (questionNum : Nat) (st : Run) : Run :=
  runQuestionDone env j questionNum inputs
    (packageDone env j questionNum (headerDone env j questionNum st))

/-- The state after the questions `1, ..., m` have been processed, `K q` being the number
of runs of question `q`. -/
def questionsDone (env : Env) (j : JavaLab) (K : Nat → Nat) : Nat → Run → Run
  | 0, st => st
  | m + 1, st => questionDone env j (K (m + 1)) (m + 1) (questionsDone env j K m st)

/-- An operating system like `envOneQuestion` in which no package directory can be
listed. -/
def envNoPackage : Env :=
  { envOneQuestion with readDir := fun _ => .error { msg := "no such directory".toList } }

/-- The state in which `RunAndReport` ends when its loop stops at question `n`: the
questions `1, ..., n - 1` done, the header of question `n` if its file can be read, and
the Summary block. -/
def reportDone (env : Env) (j : JavaLab) (K : Nat → Nat) (n : Nat) : Run :=
  ((headerDone env j n (questionsDone env j K (n - 1) { report := [], log := [] })).writeString
    "\n\n# Summary\n".toList).writeString "\n Total Points: TOGRADE\n".toList

/-- An operating system without any readable file or directory, in which commands
succeed without output. -/
def envBare : Env :=
  { readFile := fun _ => .error { msg := "no such file".toList },
    readDir := fun _ => .error { msg := "no such directory".toList },
    exec := fun _ _ => { out := [], err := none },
    create := fun _ => none,
    stdinPipe := fun _ => none,
    start := fun _ => none,
    wait := fun _ _ => { out := [], err := none } }

/-- An operating system like `envBare` in which no command can be started with `Start`
(the `java` executable is missing). -/
def envNoJava : Env :=
  { envBare with start := fun _ => some { msg := "executable file not found".toList } }

/-- An operating system like `envBare` in which the question program prints `boom` and
exits with status 1. -/
def envBoom : Env :=
  { envBare with
    wait := fun _ _ => { out := "boom".toList, err := some { msg := "exit status 1".toList } } }

/-- A process output of 5000 characters and 5001 bytes: 4999 times `x`, then e-acute. -/
def accentOutput : Str := utf8Bytes (List.replicate 4999 'x' ++ ['\u00e9'])

/-- An operating system like `envBare` in which the question program prints
`accentOutput` and exits normally. -/
def envAccent : Env :=
  { envBare with wait := fun _ _ => { out := accentOutput, err := none } }

/-- An operating system like `envOneQuestion` in which no pipe can be created. -/
def envNoPipe : Env :=
  { envOneQuestion with stdinPipe := fun _ => some { msg := "too many open files".toList } }
/-! ## Lemmas on the matcher -/

theorem run_star_succ (n : Nat) (a : Regex) (s : Str) (k : Str → Res) :
    Regex.run (n + 1) (.star a) s k =
      (match Regex.run n a s (fun s1 =>
          if s1.length < s.length then Regex.run n (.star a) s1 k else .fail) with
       | .fail => k s
       | r => r) := rfl

theorem run_lazyStar_succ (n : Nat) (a : Regex) (s : Str) (k : Str → Res) :
    Regex.run (n + 1) (.lazyStar a) s k =
      (match k s with
       | .fail => Regex.run n a s (fun s1 =>
          if s1.length < s.length then Regex.run n (.lazyStar a) s1 k else .fail)
       | r => r) := rfl

theorem run_any_nil (n : Nat) (k : Str → Res) :
    Regex.run (n + 1) .anyNotNL [] k = .fail := rfl

theorem run_any_cons (n : Nat) (c : Char) (t : Str) (k : Str → Res) :
    Regex.run (n + 1) .anyNotNL (c :: t) k = if c = '\n' then .fail else k t := rfl

theorem run_alt_succ (n : Nat) (a b : Regex) (s : Str) (k : Str → Res) :
    Regex.run (n + 1) (.alt a b) s k =
      (match Regex.run n a s k with
       | .fail => Regex.run n b s k
       | r => r) := rfl

theorem run_seq_succ (n : Nat) (a b : Regex) (s : Str) (k : Str → Res) :
    Regex.run (n + 1) (.seq a b) s k = Regex.run n a s (fun s1 => Regex.run n b s1 k) := rfl

theorem run_group_succ (n : Nat) (a : Regex) (s : Str) (k : Str → Res) :
    Regex.run (n + 1) (.group a) s k = Regex.run n a s k := rfl

theorem run_lit_succ (n : Nat) (cs s : Str) (k : Str → Res) :
    Regex.run (n + 1) (.lit cs) s k =
      if cs.isPrefixOf s then k (s.drop cs.length) else .fail := rfl

theorem run_star_any (s : Str) : ∀ n, s.length + 2 ≤ n →
    Regex.run n (.star .anyNotNL) s Res.ok = Res.ok (s.dropWhile (fun c => c != '\n')) := by
  induction s with
  | nil =>
    intro n hn
    obtain ⟨m, rfl⟩ : ∃ m, n = m + 2 := ⟨n - 2, by omega⟩
    rw [run_star_succ, run_any_nil]
    rfl
  | cons c t ih =>
    intro n hn
    obtain ⟨m, rfl⟩ : ∃ m, n = m + 2 := ⟨n - 2, by simp at hn; omega⟩
    rw [run_star_succ, run_any_cons]
    by_cases hc : c = '\n'
    · subst hc
      simp
    · have := ih (m + 1) (by simp at hn; omega)
      simp [hc, this]

theorem matchAt_rxAddTab (s : Str) :
    rxAddTab.matchAt s = some (s.dropWhile (fun c => c != '\n')) := by
  unfold Regex.matchAt
  rw [show rxAddTab = Regex.star .anyNotNL from rfl, run_star_any s _ (by simp [Regex.size]; omega)]

theorem doExecute_rxAddTab (src : Str) (pos : Nat) :
    rxAddTab.doExecute src pos =
      some (pos, pos + ((src.drop pos).length -
        ((src.drop pos).dropWhile (fun c => c != '\n')).length)) := by
  unfold Regex.doExecute
  cases h : src.drop pos with
  | nil => simp [Regex.searchFrom, matchAt_rxAddTab]
  | cons c t => simp [Regex.searchFrom, matchAt_rxAddTab]

/-! ## The fuel of the matcher is never used up -/

theorem run_endText_succ (n : Nat) (s : Str) (k : Str → Res) :
    Regex.run (n + 1) .endText s k =
      (match s with
       | [] => k []
       | _ :: _ => .fail) := by
  cases s <;> rfl

/-- With fuel above the size of the expression plus the length of the text, a run ends
with a match or a failure. -/
theorem run_ne_oof (re : Regex) : ∀ (n : Nat) (s : Str) (k : Str → Res),
    re.size + s.length + 1 ≤ n → (∀ s1 : Str, s1.length ≤ s.length → k s1 ≠ .oof) →
    Regex.run n re s k ≠ .oof := by
  induction re with
  | lit cs =>
    intro n s k hn hk
    obtain ⟨m, rfl⟩ : ∃ m, n = m + 1 := ⟨n - 1, by omega⟩
    rw [run_lit_succ]
    split_ifs
    · exact hk _ (by simp)
    · exact fun h => by cases h
  | anyNotNL =>
    intro n s k hn hk
    obtain ⟨m, rfl⟩ : ∃ m, n = m + 1 := ⟨n - 1, by omega⟩
    cases s with
    | nil => rw [run_any_nil]; exact fun h => by cases h
    | cons c t =>
      rw [run_any_cons]
      split_ifs
      · exact fun h => by cases h
      · exact hk _ (by simp)
  | endText =>
    intro n s k hn hk
    obtain ⟨m, rfl⟩ : ∃ m, n = m + 1 := ⟨n - 1, by omega⟩
    rw [run_endText_succ]
    cases s with
    | nil => exact hk _ (le_refl _)
    | cons c t => exact fun h => by cases h
  | seq a b iha ihb =>
    intro n s k hn hk
    obtain ⟨m, rfl⟩ : ∃ m, n = m + 1 := ⟨n - 1, by omega⟩
    rw [run_seq_succ]
    simp only [Regex.size] at hn
    apply iha m s _ (by omega)
    intro s1 hs1
    exact ihb m s1 k (by omega) (fun s2 hs2 => hk s2 (by omega))
  | alt a b iha ihb =>
    intro n s k hn hk
    obtain ⟨m, rfl⟩ : ∃ m, n = m + 1 := ⟨n - 1, by omega⟩
    rw [run_alt_succ]
    simp only [Regex.size] at hn
    have ha := iha m s k (by omega) hk
    have hb := ihb m s k (by omega) hk
    cases h : Regex.run m a s k with
    | oof => exact absurd h ha
    | fail => exact hb
    | ok r => exact fun h => by cases h
  | star a iha =>
    have key : ∀ (len n : Nat) (s : Str), s.length = len → ∀ k : Str → Res,
        (Regex.star a).size + s.length + 1 ≤ n →
        (∀ s1 : Str, s1.length ≤ s.length → k s1 ≠ .oof) →
        Regex.run n (.star a) s k ≠ .oof := by
      intro len
      induction len using Nat.strong_induction_on with
      | _ len ih =>
      intro n s hlen k hn hk
      obtain ⟨m, rfl⟩ : ∃ m, n = m + 1 := ⟨n - 1, by omega⟩
      rw [run_star_succ]
      simp only [Regex.size] at hn
      have hbody := iha m s (fun s1 =>
          if s1.length < s.length then Regex.run m (.star a) s1 k else .fail) (by omega)
        (by
          intro s1 hs1
          show (if s1.length < s.length then _ else _) ≠ Res.oof
          split_ifs with hlt
          · exact ih s1.length (by omega) m s1 rfl k (by simp only [Regex.size]; omega)
              (fun s2 hs2 => hk s2 (by omega))
          · exact fun h => by cases h)
      cases h : Regex.run m a s (fun s1 =>
          if s1.length < s.length then Regex.run m (.star a) s1 k else .fail) with
      | oof => exact absurd h hbody
      | fail => exact hk s (le_refl _)
      | ok r => exact fun h => by cases h
    intro n s k hn hk
    exact key s.length n s rfl k hn hk
  | lazyStar a iha =>
    have key : ∀ (len n : Nat) (s : Str), s.length = len → ∀ k : Str → Res,
        (Regex.lazyStar a).size + s.length + 1 ≤ n →
        (∀ s1 : Str, s1.length ≤ s.length → k s1 ≠ .oof) →
        Regex.run n (.lazyStar a) s k ≠ .oof := by
      intro len
      induction len using Nat.strong_induction_on with
      | _ len ih =>
      intro n s hlen k hn hk
      obtain ⟨m, rfl⟩ : ∃ m, n = m + 1 := ⟨n - 1, by omega⟩
      rw [run_lazyStar_succ]
      simp only [Regex.size] at hn
      have hbody := iha m s (fun s1 =>
          if s1.length < s.length then Regex.run m (.lazyStar a) s1 k else .fail) (by omega)
        (by
          intro s1 hs1
          show (if s1.length < s.length then _ else _) ≠ Res.oof
          split_ifs with hlt
          · exact ih s1.length (by omega) m s1 rfl k (by simp only [Regex.size]; omega)
              (fun s2 hs2 => hk s2 (by omega))
          · exact fun h => by cases h)
      cases h : k s with
      | oof => exact absurd h (hk s (le_refl _))
      | fail => exact hbody
      | ok r => exact fun h => by cases h
    intro n s k hn hk
    exact key s.length n s rfl k hn hk
  | group a iha =>
    intro n s k hn hk
    obtain ⟨m, rfl⟩ : ∃ m, n = m + 1 := ⟨n - 1, by omega⟩
    rw [run_group_succ]
    simp only [Regex.size] at hn
    exact iha m s k (by omega) hk

/-- The fuel that `matchAt` hands to the matcher suffices: `none` always means that the
expression does not match at the start of the text. -/
theorem matchAt_fuel (re : Regex) (s : Str) :
    re.run (re.size + s.length + 1) s Res.ok ≠ .oof :=
  run_ne_oof re _ s Res.ok (le_refl _) (fun _ _ h => by cases h)

theorem replaceAllLoop_succ (re : Regex) (src : Str) (repl : Str → Str)
    (fuel lastMatchEnd searchPos : Nat) (buf : Str) :
    re.replaceAllLoop src repl (fuel + 1) lastMatchEnd searchPos buf =
      if searchPos ≤ src.length then
        match re.doExecute src searchPos with
        | none => buf ++ src.drop lastMatchEnd
        | some (a0, a1) =>
          let buf1 := buf ++ slice src lastMatchEnd a0
          let buf2 := if a1 > lastMatchEnd ∨ a0 = 0 then buf1 ++ repl (slice src a0 a1) else buf1
          let width := if searchPos < src.length then 1 else 0
          let next :=
            if searchPos + width > a1 then searchPos + width
            else if searchPos + 1 > a1 then searchPos + 1
            else a1
          Regex.replaceAllLoop re src repl fuel a1 next buf2
      else buf ++ src.drop lastMatchEnd := rfl

theorem replaceAllLoop_past (re : Regex) (src : Str) (repl : Str → Str)
    (fuel lastMatchEnd searchPos : Nat) (buf : Str) (h : src.length < searchPos) :
    re.replaceAllLoop src repl fuel lastMatchEnd searchPos buf = buf ++ src.drop lastMatchEnd := by
  cases fuel with
  | zero => rfl
  | succ f => rw [replaceAllLoop_succ, if_neg (by omega)]

theorem slice_append_mid (pre mid post : Str) :
    slice (pre ++ mid ++ post) pre.length (pre.length + mid.length) = mid := by
  simp [slice]

theorem tabAfterNL_append (a b : Str) : tabAfterNL (a ++ b) = tabAfterNL a ++ tabAfterNL b := by
  induction a with
  | nil => rfl
  | cons c t ih => by_cases hc : c = '\n' <;> simp [tabAfterNL, hc, ih]

theorem tabAfterNL_noNL (a : Str) (h : ∀ c ∈ a, c ≠ '\n') : tabAfterNL a = a := by
  induction a with
  | nil => rfl
  | cons c t ih =>
    have hc : c ≠ '\n' := h c (by simp)
    simp [tabAfterNL, hc, ih (fun d hd => h d (by simp [hd]))]


theorem dropWhile_notNL_head (s : Str) :
    s.dropWhile (fun c => c != '\n') = [] ∨
      ∃ r, s.dropWhile (fun c => c != '\n') = '\n' :: r := by
  induction s with
  | nil => simp
  | cons c t ih =>
    by_cases hc : c = '\n'
    · right; exact ⟨t, by simp [hc]⟩
    · rw [List.dropWhile_cons_of_pos (by simpa using hc)]
      exact ih

theorem takeWhile_notNL_mem (s : Str) : ∀ c ∈ s.takeWhile (fun c => c != '\n'), c ≠ '\n' := by
  intro c hc
  have := List.mem_takeWhile_imp hc
  simpa using this

/-- One round of the `indent` loop at the start of a line. -/
theorem indent_round_line (pre sepr rest buf : Str) (fuel : Nat)
    (hs : sepr = [] ∧ pre = [] ∨ sepr = ['\n']) :
    rxAddTab.replaceAllLoop (pre ++ sepr ++ rest) (fun m => '\t' :: m) (fuel + 1)
        pre.length (pre.length + sepr.length) buf
      = rxAddTab.replaceAllLoop (pre ++ sepr ++ rest) (fun m => '\t' :: m) fuel
          (pre.length + sepr.length + (rest.takeWhile (fun c => c != '\n')).length)
          (if rest.takeWhile (fun c => c != '\n') = [] then pre.length + sepr.length + 1
           else pre.length + sepr.length + (rest.takeWhile (fun c => c != '\n')).length)
          (buf ++ sepr ++ '\t' :: rest.takeWhile (fun c => c != '\n')) := by
  have hsplit := List.takeWhile_append_dropWhile (fun c => c != '\n') rest
  generalize hline : rest.takeWhile (fun c => c != '\n') = line at *
  generalize hrest' : rest.dropWhile (fun c => c != '\n') = rest' at *
  have hdrop : (pre ++ sepr ++ rest).drop (pre.length + sepr.length) = rest := by
    rw [← List.length_append]; exact List.drop_left _ _
  have hlen : rest.length - rest'.length = line.length := by
    rw [← hsplit]; simp
  rw [replaceAllLoop_succ, if_pos (by simp), doExecute_rxAddTab, hdrop, hrest', hlen]
  have h1 : slice (pre ++ sepr ++ rest) pre.length (pre.length + sepr.length) = sepr :=
    slice_append_mid pre sepr rest
  have h2 : slice (pre ++ sepr ++ rest) (pre.length + sepr.length)
      (pre.length + sepr.length + line.length) = line := by
    rw [← hsplit, ← List.length_append, ← List.append_assoc]
    exact slice_append_mid (pre ++ sepr) line rest'
  have hcond : pre.length + sepr.length + line.length > pre.length ∨
      pre.length + sepr.length = 0 := by
    rcases hs with ⟨h, h'⟩ | h
    · right; simp [h, h']
    · left; rw [h]; simp only [List.length_singleton]; omega
  simp only [h1, h2, if_pos hcond]
  congr 1
  by_cases hl : line = []
  · subst hl
    simp only [List.length_nil, Nat.add_zero, if_true]
    split_ifs <;> omega
  · have : 1 ≤ line.length := by
      cases line with
      | nil => exact absurd rfl hl
      | cons _ _ => simp
    simp only [if_neg hl]
    split_ifs <;> omega

theorem searchFrom_bounds (re : Regex) (s : Str) : ∀ (off a0 a1 : Nat),
    re.searchFrom s off = some (a0, a1) → off ≤ a0 ∧ a0 ≤ a1 := by
  induction s with
  | nil =>
    intro off a0 a1 h
    rw [Regex.searchFrom] at h
    cases hm : re.matchAt [] with
    | none => rw [hm] at h; cases h
    | some r =>
      rw [hm] at h
      simp only [Option.some.injEq, Prod.mk.injEq] at h
      omega
  | cons c t ih =>
    intro off a0 a1 h
    rw [Regex.searchFrom] at h
    cases hm : re.matchAt (c :: t) with
    | none =>
      rw [hm] at h
      have := ih (off + 1) a0 a1 h
      omega
    | some r =>
      rw [hm] at h
      simp only [Option.some.injEq, Prod.mk.injEq] at h
      omega

/-- The rounds of `replaceAll` are bounded: with fuel above `src.length + 1 - searchPos`
the result does not depend on the fuel, so the fuel of `ReplaceAllString` is never
used up. -/
theorem replaceAllLoop_fuel (re : Regex) (src : Str) (repl : Str → Str) : ∀ (d : Nat)
    (searchPos lastMatchEnd : Nat) (buf : Str) (f1 f2 : Nat),
    src.length + 1 - searchPos ≤ d → d < f1 → d < f2 →
    re.replaceAllLoop src repl f1 lastMatchEnd searchPos buf =
      re.replaceAllLoop src repl f2 lastMatchEnd searchPos buf := by
  intro d
  induction d with
  | zero =>
    intro searchPos lastMatchEnd buf f1 f2 hd h1 h2
    rw [replaceAllLoop_past _ _ _ _ _ _ _ (by omega), replaceAllLoop_past _ _ _ _ _ _ _ (by omega)]
  | succ d ih =>
    intro searchPos lastMatchEnd buf f1 f2 hd h1 h2
    obtain ⟨g1, rfl⟩ : ∃ g, f1 = g + 1 := ⟨f1 - 1, by omega⟩
    obtain ⟨g2, rfl⟩ : ∃ g, f2 = g + 1 := ⟨f2 - 1, by omega⟩
    rw [replaceAllLoop_succ, replaceAllLoop_succ]
    by_cases hpos : searchPos ≤ src.length
    · rw [if_pos hpos, if_pos hpos]
      cases hex : re.doExecute src searchPos with
      | none => rfl
      | some a =>
        obtain ⟨a0, a1⟩ := a
        have hb := searchFrom_bounds re _ _ _ _ hex
        simp only
        apply ih
        · split_ifs <;> omega
        · omega
        · omega
    · rw [if_neg hpos, if_neg hpos]

/-- The round of the `indent` loop right after a non-empty line: the empty match that
abuts the line is skipped. -/
theorem indent_round_abut (pre rest buf : Str) (fuel : Nat) (hpre : pre ≠ [])
    (hrest : rest = [] ∨ ∃ r, rest = '\n' :: r) :
    rxAddTab.replaceAllLoop (pre ++ rest) (fun m => '\t' :: m) (fuel + 1)
        pre.length pre.length buf
      = rxAddTab.replaceAllLoop (pre ++ rest) (fun m => '\t' :: m) fuel
          pre.length (pre.length + 1) buf := by
  have hdrop : (pre ++ rest).drop pre.length = rest := List.drop_left _ _
  have hdw : rest.dropWhile (fun c => c != '\n') = rest := by
    rcases hrest with h | ⟨r, h⟩ <;> simp [h]
  have hpos : 0 < pre.length := List.length_pos.mpr hpre
  rw [replaceAllLoop_succ, if_pos (by simp), doExecute_rxAddTab, hdrop, hdw]
  have hcond : ¬ (pre.length > pre.length ∨ pre.length = 0) := by
    omega
  simp only [Nat.sub_self, Nat.add_zero, if_neg hcond]
  have hs : slice (pre ++ rest) pre.length pre.length = [] := by simp [slice]
  rw [hs, List.append_nil]
  congr 1
  split_ifs <;> omega

theorem indent_loop : ∀ (n : Nat) (rest : Str), rest.length ≤ n →
    ∀ (fuel : Nat) (pre sepr buf : Str),
    (sepr = [] ∧ pre = [] ∨ sepr = ['\n']) → rest.length + 2 ≤ fuel →
    rxAddTab.replaceAllLoop (pre ++ sepr ++ rest) (fun m => '\t' :: m) fuel
        pre.length (pre.length + sepr.length) buf
      = buf ++ sepr ++ '\t' :: tabAfterNL rest := by
  intro n
  induction n with
  | zero =>
    intro rest hlen fuel pre sepr buf hs hf
    have hr : rest = [] := List.length_eq_zero.mp (by omega)
    subst hr
    obtain ⟨f, rfl⟩ : ∃ f, fuel = f + 1 := ⟨fuel - 1, by simp at hf; omega⟩
    rw [indent_round_line pre sepr [] buf f hs]
    simp only [List.takeWhile_nil, List.length_nil, Nat.add_zero, if_true]
    rw [replaceAllLoop_past _ _ _ _ _ _ _ (by simp)]
    simp [tabAfterNL]
  | succ n ih =>
    intro rest hlen fuel pre sepr buf hs hf
    obtain ⟨f, rfl⟩ : ∃ f, fuel = f + 1 := ⟨fuel - 1, by omega⟩
    rw [indent_round_line pre sepr rest buf f hs]
    have hsplit := List.takeWhile_append_dropWhile (fun c => c != '\n') rest
    have hmem := takeWhile_notNL_mem rest
    have hhead := dropWhile_notNL_head rest
    generalize rest.takeWhile (fun c => c != '\n') = line at *
    generalize rest.dropWhile (fun c => c != '\n') = rest' at *
    subst hsplit
    rw [tabAfterNL_append, tabAfterNL_noNL line hmem]
    by_cases hl : line = []
    · subst hl
      simp only [List.length_nil, Nat.add_zero, if_true, List.nil_append]
      rcases hhead with h | ⟨r, h⟩
      · subst h
        rw [replaceAllLoop_past _ _ _ _ _ _ _ (by simp)]
        simp [tabAfterNL]
      · subst h
        have := ih r (by simp at hlen; omega) f (pre ++ sepr) ['\n']
          (buf ++ sepr ++ ['\t']) (Or.inr rfl) (by simp at hf; omega)
        simp only [List.length_append, List.length_singleton, List.append_assoc,
          List.nil_append, List.singleton_append] at this ⊢
        rw [this]
        simp [tabAfterNL]
    · simp only [if_neg hl]
      have hpre : pre ++ sepr ++ line ≠ [] := by simp [hl]
      have hlpos : 1 ≤ line.length := by
        cases line with
        | nil => exact absurd rfl hl
        | cons _ _ => simp
      obtain ⟨g, rfl⟩ : ∃ g, f = g + 1 := ⟨f - 1, by simp at hf; omega⟩
      have hab := indent_round_abut (pre ++ sepr ++ line) rest' (buf ++ sepr ++ '\t' :: line) g
        hpre hhead
      simp only [List.length_append, List.append_assoc, Nat.add_assoc] at hab ⊢
      rw [hab]
      rcases hhead with h | ⟨r, h⟩
      · subst h
        rw [replaceAllLoop_past _ _ _ _ _ _ _ (by simp)]
        simp [tabAfterNL]
      · subst h
        have := ih r (by simp at hlen; omega) g (pre ++ sepr ++ line) ['\n']
          (buf ++ sepr ++ '\t' :: line) (Or.inr rfl) (by simp at hf; omega)
        simp only [List.length_append, List.length_singleton, List.append_assoc,
          List.nil_append, List.singleton_append, Nat.add_assoc] at this ⊢
        rw [this]
        simp [tabAfterNL]

/-- Closed form of `indent`: a tab in front, and a tab after every line feed. -/
theorem indent_eq (text : Str) : indent text = '\t' :: tabAfterNL text := by
  have := indent_loop text.length text (le_refl _) (text.length + 2) [] [] [] (Or.inl ⟨rfl, rfl⟩)
    (le_refl _)
  simpa [indent, Regex.ReplaceAllString] using this

/-! ## The pattern `.zip$` -/

theorem run_rxZip (s : Str) (n : Nat) (hn : 4 ≤ n) :
    Regex.run n rxZip s Res.ok = if isAnyZip s then Res.ok [] else Res.fail := by
  obtain ⟨m, rfl⟩ : ∃ m, n = m + 4 := ⟨n - 4, by omega⟩
  rcases s with _ | ⟨c, _ | ⟨c1, _ | ⟨c2, _ | ⟨c3, _ | ⟨c4, t⟩⟩⟩⟩⟩
  · simp [rxZip, Regex.run, isAnyZip]
  · by_cases hc : c = '\n' <;> simp [rxZip, Regex.run, isAnyZip, hc]
  · by_cases hc : c = '\n' <;> simp [rxZip, Regex.run, isAnyZip, hc]
  · by_cases hc : c = '\n' <;> simp [rxZip, Regex.run, isAnyZip, hc]
  · by_cases hc : c = '\n' <;> by_cases h1 : c1 = 'z' <;> by_cases h2 : c2 = 'i' <;>
      by_cases h3 : c3 = 'p' <;> simp [rxZip, Regex.run, isAnyZip, hc, h1, h2, h3, @eq_comm _ 'z', @eq_comm _ 'i',
        @eq_comm _ 'p']
  · by_cases hc : c = '\n' <;> by_cases h1 : c1 = 'z' <;> by_cases h2 : c2 = 'i' <;>
      by_cases h3 : c3 = 'p' <;> simp [rxZip, Regex.run, isAnyZip, hc, h1, h2, h3, @eq_comm _ 'z', @eq_comm _ 'i',
        @eq_comm _ 'p']

theorem matchAt_rxZip (s : Str) :
    rxZip.matchAt s = if isAnyZip s then some [] else none := by
  unfold Regex.matchAt
  rw [run_rxZip s _ (by simp [rxZip, Regex.size]; omega)]
  split_ifs <;> rfl

theorem isAnyZip_length {s : Str} (h : isAnyZip s = true) : s.length = 4 := by
  rcases s with _ | ⟨c, _ | ⟨c1, _ | ⟨c2, _ | ⟨c3, _ | ⟨c4, t⟩⟩⟩⟩⟩ <;> simp_all [isAnyZip]

theorem hasZipTail_length {s : Str} (h : hasZipTail s = true) : 4 ≤ s.length := by
  induction s with
  | nil => simp [hasZipTail] at h
  | cons c t ih =>
    simp only [hasZipTail, Bool.or_eq_true] at h
    rcases h with h | h
    · rw [isAnyZip_length h]
    · have := ih h
      simp; omega

theorem searchFrom_rxZip (s : Str) : ∀ off : Nat,
    rxZip.searchFrom s off =
      if hasZipTail s then some (off + (s.length - 4), off + s.length) else none := by
  induction s with
  | nil => intro off; simp [Regex.searchFrom, matchAt_rxZip, isAnyZip, hasZipTail]
  | cons c t ih =>
    intro off
    rw [Regex.searchFrom, matchAt_rxZip]
    by_cases h : isAnyZip (c :: t) = true
    · have hl := isAnyZip_length h
      simp [h, hasZipTail, hl]
    · simp only [h, hasZipTail, Bool.false_or, if_false, ih (off + 1)]
      by_cases h2 : hasZipTail t = true
      · have := hasZipTail_length h2
        have e1 : off + 1 + (t.length - 4) = off + (t.length + 1 - 4) := by omega
        have e2 : off + 1 + t.length = off + (t.length + 1) := by omega
        simp only [h2, if_true, List.length_cons, e1, e2]
        rfl
      · simp [h2]

theorem hasZipTail_drop {s : Str} (h : hasZipTail s = true) :
    isAnyZip (s.drop (s.length - 4)) = true := by
  induction s with
  | nil => simp [hasZipTail] at h
  | cons c t ih =>
    simp only [hasZipTail, Bool.or_eq_true] at h
    by_cases h1 : isAnyZip (c :: t) = true
    · have hl := isAnyZip_length h1
      rw [hl]; simpa using h1
    · have h2 : hasZipTail t = true := by tauto
      have hl := hasZipTail_length h2
      have : (c :: t).length - 4 = (t.length - 4) + 1 := by simp; omega
      rw [this, List.drop_succ_cons]
      exact ih h2

/-- Closed form of the first statement of `New`: the text matched by `.zip$` is cut off. -/
theorem chop_eq (s : Str) :
    rxZip.ReplaceAllString s (fun _ => []) =
      if hasZipTail s then s.take (s.length - 4) else s := by
  unfold Regex.ReplaceAllString
  rw [replaceAllLoop_succ, if_pos (Nat.zero_le _)]
  simp only [Regex.doExecute, List.drop_zero, searchFrom_rxZip]
  by_cases h : hasZipTail s = true
  · have hl := hasZipTail_length h
    simp only [h, if_true, Nat.zero_add]
    have hnext : (if (if 0 < s.length then 1 else 0) > s.length then
          (if 0 < s.length then 1 else 0)
        else if 1 > s.length then 1 else s.length) = s.length := by
      split_ifs <;> omega
    simp only [hnext]
    rw [replaceAllLoop_succ, if_pos (le_refl _)]
    simp only [Regex.doExecute, List.drop_length, searchFrom_rxZip, hasZipTail]
    simp [slice]
  · simp [h]

/-! ## The pattern `(Lab.*?)$|(Midterm.*?)$` -/

theorem run_lazy_any_end (u : Str) : ∀ f m : Nat, u.length + 1 ≤ f →
    Regex.run f (.lazyStar .anyNotNL) u (fun s1 => Regex.run (m + 1) .endText s1 Res.ok) =
      if u.all (fun c => c != '\n') then Res.ok [] else Res.fail := by
  induction u with
  | nil =>
    intro f m hf
    obtain ⟨g, rfl⟩ : ∃ g, f = g + 1 := ⟨f - 1, by simp at hf; omega⟩
    rw [run_lazyStar_succ]
    simp [Regex.run]
  | cons c t ih =>
    intro f m hf
    obtain ⟨g, rfl⟩ : ∃ g, f = g + 2 := ⟨f - 2, by simp at hf; omega⟩
    rw [run_lazyStar_succ]
    have h1 : Regex.run (m + 1) .endText (c :: t) Res.ok = Res.fail := rfl
    simp only [h1, run_any_cons]
    by_cases hc : c = '\n'
    · simp [hc]
    · have := ih (g + 1) m (by simp at hf; omega)
      simp [hc, this]

theorem prefix_split {p s : Str} (h : p.isPrefixOf s = true) : s = p ++ s.drop p.length := by
  have := List.isPrefixOf_iff_prefix.mp h
  obtain ⟨t, rfl⟩ := this
  simp

theorem all_notNL_drop_Lab {s : Str} (h : "Lab".toList.isPrefixOf s = true) :
    s.all (fun c => c != '\n') = (s.drop 3).all (fun c => c != '\n') := by
  have := prefix_split h
  rw [this]
  simp

theorem all_notNL_drop_Midterm {s : Str} (h : "Midterm".toList.isPrefixOf s = true) :
    s.all (fun c => c != '\n') = (s.drop 7).all (fun c => c != '\n') := by
  have := prefix_split h
  rw [this]
  simp

theorem not_Lab_and_Midterm {s : Str} (h : "Lab".toList.isPrefixOf s = true) :
    "Midterm".toList.isPrefixOf s = false := by
  cases s with
  | nil => simp at h
  | cons c t =>
    have hc : 'L' = c := by
      have := prefix_split h
      simp at this
      exact this.1.symm
    subst hc
    rfl

theorem run_rxLab (s : Str) (n : Nat) (hn : s.length + 6 ≤ n) :
    Regex.run n rxLab s Res.ok = if isLabTail s then Res.ok [] else Res.fail := by
  obtain ⟨m, rfl⟩ : ∃ m, n = m + 5 := ⟨n - 5, by omega⟩
  have hL := run_lazy_any_end (s.drop 3) (m + 1) (m + 2) (by simp; omega)
  have hM := run_lazy_any_end (s.drop 7) (m + 1) (m + 2) (by simp; omega)
  have l3 : "Lab".toList.length = 3 := rfl
  have l7 : "Midterm".toList.length = 7 := rfl
  simp only [rxLab, run_alt_succ, run_seq_succ, run_group_succ, run_lit_succ, l3, l7, hL, hM]
  unfold isLabTail
  cases h1 : "Lab".toList.isPrefixOf s
  · cases h2 : "Midterm".toList.isPrefixOf s
    · rfl
    · rw [all_notNL_drop_Midterm h2]
      cases h3 : (List.drop 7 s).all (fun c => c != '\n') <;> rfl
  · have h2 := not_Lab_and_Midterm h1
    rw [all_notNL_drop_Lab h1, h2]
    cases h3 : (List.drop 3 s).all (fun c => c != '\n') <;> rfl

theorem matchAt_rxLab (s : Str) :
    rxLab.matchAt s = if isLabTail s then some [] else none := by
  unfold Regex.matchAt
  rw [run_rxLab s _ (by simp [rxLab, Regex.size]; omega)]
  split_ifs <;> rfl

theorem labTail_some {s u : Str} (h : labTail s = some u) :
    isLabTail u = true ∧ ∃ pre, s = pre ++ u := by
  induction s with
  | nil => simp [labTail] at h
  | cons c t ih =>
    rw [labTail] at h
    by_cases hc : isLabTail (c :: t) = true
    · rw [if_pos hc] at h
      cases h
      exact ⟨hc, [], rfl⟩
    · rw [if_neg hc] at h
      obtain ⟨h1, pre, h2⟩ := ih h
      exact ⟨h1, c :: pre, by rw [h2]; rfl⟩

theorem searchFrom_rxLab (s : Str) : ∀ off : Nat,
    rxLab.searchFrom s off =
      (labTail s).map (fun u => (off + (s.length - u.length), off + s.length)) := by
  induction s with
  | nil => intro off; simp [Regex.searchFrom, matchAt_rxLab, isLabTail, labTail]
  | cons c t ih =>
    intro off
    rw [Regex.searchFrom, matchAt_rxLab]
    by_cases h : isLabTail (c :: t) = true
    · simp [h, labTail]
    · simp only [h, labTail, if_false, ih (off + 1)]
      cases hu : labTail t with
      | none => rfl
      | some u =>
        obtain ⟨-, pre, hpre⟩ := labTail_some hu
        have hl : u.length ≤ t.length := by rw [hpre]; simp
        have e1 : off + 1 + (t.length - u.length) = off + (t.length + 1 - u.length) := by omega
        have e2 : off + 1 + t.length = off + (t.length + 1) := by omega
        simp only [Option.map_some', List.length_cons, e1, e2]
        rfl

theorem MatchString_rxLab (s : Str) : rxLab.MatchString s = (labTail s).isSome := by
  simp [Regex.MatchString, Regex.doExecute, searchFrom_rxLab]

theorem FindString_rxLab (s : Str) : rxLab.FindString s = (labTail s).getD [] := by
  unfold Regex.FindString
  simp only [Regex.doExecute, List.drop_zero, searchFrom_rxLab]
  cases hu : labTail s with
  | none => rfl
  | some u =>
    obtain ⟨-, pre, hpre⟩ := labTail_some hu
    subst hpre
    simp [slice]

/-- Closed form of `New`. -/
theorem New_eq (env : Env) (zipFileName secPolicyPath : Str) :
    New env zipFileName secPolicyPath =
      match env.readFile zipFileName with
      | .error e => .error e
      | .ok _ =>
        let chopped := if hasZipTail zipFileName then
          zipFileName.take (zipFileName.length - 4) else zipFileName
        match labTail chopped with
        | none => .panic newPanicMsg
        | some labName =>
          .ok { zipFileName := zipFileName,
                labFolderName := chopped ++ "/".toList ++ labName,
                extractPath := chopped, labName := labName,
                secPolicyPath := secPolicyPath,
                templateFolderName := "LabTemplate".toList ++ "/".toList ++ labName } := by
  unfold New
  cases hr : env.readFile zipFileName with
  | error e => rfl
  | ok content =>
    simp only [chop_eq, MatchString_rxLab, FindString_rxLab]
    cases hl : labTail (if hasZipTail zipFileName then
          zipFileName.take (zipFileName.length - 4) else zipFileName) with
    | none => simp
    | some u => simp

/-! ## Names of the form `<student>Lab<suffix>.zip` -/

theorem hasZipTail_append_zip (base : Str) : hasZipTail (base ++ ".zip".toList) = true := by
  induction base with
  | nil => rfl
  | cons c t ih =>
    show (isAnyZip (c :: (t ++ ".zip".toList)) || hasZipTail (t ++ ".zip".toList)) = true
    rw [ih, Bool.or_true]

theorem chop_append_zip (base : Str) :
    rxZip.ReplaceAllString (base ++ ".zip".toList) (fun _ => []) = base := by
  rw [chop_eq, if_pos (hasZipTail_append_zip base)]
  have : (base ++ ".zip".toList).length - 4 = base.length := by
    rw [List.length_append]; show base.length + 4 - 4 = base.length; omega
  rw [this, List.take_left]

theorem no_Lab_straddle (u t : Str) (hu : u ≠ []) (h : ¬ "Lab".toList <:+: u) :
    "Lab".toList.isPrefixOf (u ++ "Lab".toList ++ t) = false := by
  rw [Bool.eq_false_iff]
  intro hp
  rw [List.isPrefixOf_iff_prefix] at hp
  apply h
  rcases u with _ | ⟨c1, _ | ⟨c2, _ | ⟨c3, r⟩⟩⟩
  · exact absurd rfl hu
  · simp [List.cons_prefix_cons] at hp
  · simp [List.cons_prefix_cons] at hp
  · simp [List.cons_prefix_cons] at hp
    obtain ⟨rfl, rfl, rfl⟩ := hp
    exact ⟨[], r, rfl⟩

theorem no_Midterm_straddle (u t : Str) (hu : u ≠ []) (h : ¬ "Midterm".toList <:+: u) :
    "Midterm".toList.isPrefixOf (u ++ "Lab".toList ++ t) = false := by
  rw [Bool.eq_false_iff]
  intro hp
  rw [List.isPrefixOf_iff_prefix] at hp
  apply h
  rcases u with _ | ⟨c1, _ | ⟨c2, _ | ⟨c3, _ | ⟨c4, _ | ⟨c5, _ | ⟨c6, _ | ⟨c7, r⟩⟩⟩⟩⟩⟩⟩
  · exact absurd rfl hu
  · simp [List.cons_prefix_cons] at hp
  · simp [List.cons_prefix_cons] at hp
  · simp [List.cons_prefix_cons] at hp
  · simp [List.cons_prefix_cons] at hp
  · simp [List.cons_prefix_cons] at hp
  · simp [List.cons_prefix_cons] at hp
  · simp [List.cons_prefix_cons] at hp
    obtain ⟨rfl, rfl, rfl, rfl, rfl, rfl, rfl⟩ := hp
    exact ⟨[], r, rfl⟩

theorem labTail_student (s t : Str) (h1 : ¬ "Lab".toList <:+: s)
    (h2 : ¬ "Midterm".toList <:+: s) (ht : '\n' ∉ t) :
    labTail (s ++ "Lab".toList ++ t) = some ("Lab".toList ++ t) := by
  induction s with
  | nil =>
    have : isLabTail ('L' :: 'a' :: 'b' :: t) = true := by
      simp [isLabTail]
      intro x hx hxn
      exact ht (hxn ▸ hx)
    show (if isLabTail ('L' :: 'a' :: 'b' :: t) = true then _ else _) = _
    rw [if_pos this]
    rfl
  | cons c r ih =>
    have hl := no_Lab_straddle (c :: r) t (by simp) h1
    have hm := no_Midterm_straddle (c :: r) t (by simp) h2
    have : isLabTail (c :: r ++ "Lab".toList ++ t) = false := by
      unfold isLabTail
      rw [hl, hm]; rfl
    show (if isLabTail (c :: r ++ "Lab".toList ++ t) = true then _ else _) = _
    rw [this]
    simp only [Bool.false_eq_true, if_false]
    apply ih
    · intro hi; exact h1 (List.infix_cons hi)
    · intro hi; exact h2 (List.infix_cons hi)

/-! ## Claims about `New` -/

/-- The outcome of `New` for a readable archive named `base.zip`, in terms of the leftmost
lab name of `base`. -/
theorem New_of_zip (env : Env) (base sec content : Str)
    (hread : env.readFile (base ++ ".zip".toList) = .ok content) :
    New env (base ++ ".zip".toList) sec =
      match labTail base with
      | none => .panic newPanicMsg
      | some labName =>
        .ok { zipFileName := base ++ ".zip".toList,
              labFolderName := base ++ "/".toList ++ labName,
              extractPath := base, labName := labName,
              secPolicyPath := sec,
              templateFolderName := "LabTemplate".toList ++ "/".toList ++ labName } := by
  have hlen : (base ++ ".zip".toList).length - 4 = base.length := by
    rw [List.length_append]; show base.length + 4 - 4 = base.length; omega
  rw [New_eq, hread]
  simp only [hasZipTail_append_zip, if_true, hlen, List.take_left]

/-- C1 (as amended): for a student name `s` that contains neither `Lab` nor `Midterm` and
a lab suffix `t` without a line feed, `New` on the readable archive `s ++ "Lab" ++ t ++ ".zip"`
succeeds with `labName = "Lab" ++ t`, `labFolderName = s ++ "Lab" ++ t ++ "/" ++ "Lab" ++ t`
and `templateFolderName = "LabTemplate/" ++ "Lab" ++ t`. -/
theorem C1_new_names (env : Env) (s t sec content : Str)
    (hread : env.readFile (s ++ "Lab".toList ++ t ++ ".zip".toList) = .ok content)
    (hLab : ¬ "Lab".toList <:+: s) (hMid : ¬ "Midterm".toList <:+: s) (ht : '\n' ∉ t) :
    New env (s ++ "Lab".toList ++ t ++ ".zip".toList) sec =
      .ok { zipFileName := s ++ "Lab".toList ++ t ++ ".zip".toList,
            labFolderName := s ++ "Lab".toList ++ t ++ "/".toList ++ ("Lab".toList ++ t),
            extractPath := s ++ "Lab".toList ++ t,
            labName := "Lab".toList ++ t,
            templateFolderName := "LabTemplate/".toList ++ ("Lab".toList ++ t),
            secPolicyPath := sec } := by
  rw [New_of_zip env _ sec content hread, labTail_student s t hLab hMid ht]
  rfl

/-- C1, the example of the source: `RuskLabOne.zip` gives the lab name `LabOne`. -/
theorem C1_new_names_witness :
    New envQuiet "RuskLabOne.zip".toList "secpolicy".toList =
      .ok { zipFileName := "RuskLabOne.zip".toList,
            labFolderName := "RuskLabOne/LabOne".toList,
            extractPath := "RuskLabOne".toList,
            labName := "LabOne".toList,
            templateFolderName := "LabTemplate/LabOne".toList,
            secPolicyPath := "secpolicy".toList } :=
  C1_new_names envQuiet "Rusk".toList "One".toList "secpolicy".toList [] rfl
    (by decide) (by decide) (by decide)

/-- C1 as stated fails: for the student name `McLabney` and the suffix `One` (no line feed
in either, archive readable) the lab name is `LabneyLabOne`, not `LabOne`. -/
theorem C1_counterexample :
    New envQuiet ("McLabney".toList ++ "Lab".toList ++ "One".toList ++ ".zip".toList) [] =
      .ok { zipFileName := "McLabneyLabOne.zip".toList,
            labFolderName := "McLabneyLabOne/LabneyLabOne".toList,
            extractPath := "McLabneyLabOne".toList,
            labName := "LabneyLabOne".toList,
            templateFolderName := "LabTemplate/LabneyLabOne".toList,
            secPolicyPath := [] } ∧
    "LabneyLabOne".toList ≠ "Lab".toList ++ "One".toList ∧
    '\n' ∉ "McLabney".toList ∧ '\n' ∉ "One".toList := by
  decide

/-- C2, the failing input: the readable archive `FooLabOnezip` does not end in `.zip`, yet
`New` removes its final four characters: `extractPath` is `FooLabOn`. -/
theorem C2_chop_without_dot :
    New envQuiet "FooLabOnezip".toList [] =
      .ok { zipFileName := "FooLabOnezip".toList,
            labFolderName := "FooLabOn/LabOn".toList,
            extractPath := "FooLabOn".toList,
            labName := "LabOn".toList,
            templateFolderName := "LabTemplate/LabOn".toList,
            secPolicyPath := [] } ∧
    ¬ ".zip".toList <:+ "FooLabOnezip".toList := by
  decide

/-- The half of C2 that the code meets: for a name that ends in the literal `.zip`, the
extraction directory is the name without its final four characters. -/
theorem extractPath_of_zip (env : Env) (base sec : Str) (j : JavaLab)
    (h : New env (base ++ ".zip".toList) sec = .ok j) : j.extractPath = base := by
  cases hread : env.readFile (base ++ ".zip".toList) with
  | error e =>
    unfold New at h
    rw [hread] at h
    exact absurd h (by simp)
  | ok content =>
    rw [New_of_zip env base sec content hread] at h
    cases hl : labTail base with
    | none => simp [hl] at h
    | some u =>
      simp only [hl, Outcome.ok.injEq] at h
      rw [← h]

/-- C3, the failing input: the archive `Labzip` is readable, it does not end in `.zip` and
it contains `Lab`, yet `New` panics. -/
theorem C3_panic_on_Labzip :
    New envQuiet "Labzip".toList [] = .panic newPanicMsg ∧
    envQuiet.readFile "Labzip".toList = .ok [] ∧
    ¬ ".zip".toList <:+ "Labzip".toList ∧
    "Lab".toList <:+: "Labzip".toList ∧ '\n' ∉ "Labzip".toList := by
  refine ⟨rfl, rfl, by decide, by decide, by decide⟩

/-! ## The three outcomes of `New` -/

theorem isLabTail_of_notNL (u : Str) (h : '\n' ∉ u) :
    isLabTail u = true ↔ ("Lab".toList <+: u ∨ "Midterm".toList <+: u) := by
  have hall : u.all (fun c => c != '\n') = true := by
    rw [List.all_eq_true]
    intro c hc
    simp only [bne_iff_ne, ne_eq]
    intro hcn
    exact h (hcn ▸ hc)
  unfold isLabTail
  rw [hall, Bool.and_true, Bool.or_eq_true, List.isPrefixOf_iff_prefix,
    List.isPrefixOf_iff_prefix]

theorem labTail_isSome_iff (u : Str) (h : '\n' ∉ u) :
    (labTail u).isSome = true ↔ ("Lab".toList <:+: u ∨ "Midterm".toList <:+: u) := by
  induction u with
  | nil =>
    simp only [labTail, Option.isSome_none, Bool.false_eq_true, false_iff, not_or]
    exact ⟨by decide, by decide⟩
  | cons c t ih =>
    have ht : '\n' ∉ t := fun hm => h (List.mem_cons_of_mem c hm)
    rw [labTail, List.infix_cons_iff, List.infix_cons_iff]
    by_cases hc : isLabTail (c :: t) = true
    · rw [if_pos hc]
      have := (isLabTail_of_notNL (c :: t) h).mp hc
      simp only [Option.isSome_some, true_iff]
      tauto
    · rw [if_neg hc, ih ht]
      have := (isLabTail_of_notNL (c :: t) h).not.mp hc
      tauto

/-- The three outcomes of `New` for a name without line feed, in terms of the name as
chopped by the code: the read error first, then the panic, else a lab. -/
theorem New_outcomes (env : Env) (name sec : Str) (hnl : '\n' ∉ name) :
    (∀ e, env.readFile name = .error e → New env name sec = .error e) ∧
    (∀ content, env.readFile name = .ok content →
      ("Lab".toList <:+: rxZip.ReplaceAllString name (fun _ => []) ∨
       "Midterm".toList <:+: rxZip.ReplaceAllString name (fun _ => [])) →
      ∃ j, New env name sec = .ok j) ∧
    (∀ content, env.readFile name = .ok content →
      ¬ ("Lab".toList <:+: rxZip.ReplaceAllString name (fun _ => []) ∨
         "Midterm".toList <:+: rxZip.ReplaceAllString name (fun _ => [])) →
      New env name sec = .panic newPanicMsg) := by
  have hchop : '\n' ∉ rxZip.ReplaceAllString name (fun _ => []) := by
    rw [chop_eq]
    split_ifs
    · exact fun hm => hnl (List.mem_of_mem_take hm)
    · exact hnl
  have hiff := labTail_isSome_iff _ hchop
  rw [chop_eq] at hiff ⊢
  refine ⟨?_, ?_, ?_⟩
  · intro e he
    rw [New_eq, he]
  · intro content hc hin
    rw [New_eq, hc]
    have := hiff.mpr hin
    cases hl : labTail (if hasZipTail name = true then List.take (name.length - 4) name
        else name) with
    | none => rw [hl] at this; cases this
    | some u =>
      simp only [hl]
      exact ⟨_, rfl⟩
  · intro content hc hin
    rw [New_eq, hc]
    cases hl : labTail (if hasZipTail name = true then List.take (name.length - 4) name
        else name) with
    | none => simp only [hl]
    | some u =>
      exfalso
      apply hin
      apply hiff.mp
      rw [hl]; rfl

/-- A name that `.zip$` does not match is left as it is by the first statement of `New`. -/
theorem chop_of_no_tail (name : Str) (h : hasZipTail name = false) :
    rxZip.ReplaceAllString name (fun _ => []) = name := by
  rw [chop_eq, h]
  rfl

/-- The names that `.zip$` matches: they end in a character other than the line feed
followed by `zip`. -/
theorem hasZipTail_iff (name : Str) :
    hasZipTail name = true ↔ ∃ base c, c ≠ '\n' ∧ name = base ++ [c, 'z', 'i', 'p'] := by
  induction name with
  | nil => simp [hasZipTail]
  | cons a t ih =>
    rw [hasZipTail, Bool.or_eq_true, ih]
    constructor
    · rintro (h | ⟨base, c, hc, rfl⟩)
      · have hl := isAnyZip_length h
        rcases t with _ | ⟨c1, _ | ⟨c2, _ | ⟨c3, _ | ⟨c4, r⟩⟩⟩⟩ <;> simp at hl
        simp only [isAnyZip] at h
        split at h
        · rename_i c heq
          simp only [List.cons.injEq, and_true] at heq
          obtain ⟨rfl, rfl, rfl, rfl⟩ := heq
          exact ⟨[], a, by simpa using h, rfl⟩
        · rename_i hne
          exact absurd h (by simp)
      · exact ⟨a :: base, c, hc, rfl⟩
    · rintro ⟨base, c, hc, h⟩
      cases base with
      | nil =>
        left
        simp only [List.nil_append, List.cons.injEq] at h
        obtain ⟨rfl, rfl⟩ := h
        simp [isAnyZip, hc]
      | cons b bs =>
        right
        simp only [List.cons_append, List.cons.injEq] at h
        exact ⟨bs, c, hc, h.2⟩

/-! ## Claims about `Build` -/

/-- C4 (as amended): `Build` returns a non-nil error if and only if the copy command or
the `ant` command failed; the outcome of `unzip` does not matter.  An error that `Build`
returns makes the `check` of `main` end the process. -/
theorem C4_build_error (env : Env) (j : JavaLab) :
    (Build env j ≠ none ↔
      (env.exec (cpCmd j) none).err ≠ none ∨ (env.exec (antCmd j) none).err ≠ none) ∧
    (∀ (e : GoError) (prog zipFileName : Str) (fuel : Nat), Build env j = some e →
      New env zipFileName "secpolicy".toList = .ok j →
      main env [prog, zipFileName] fuel = some (.fatal e)) := by
  constructor
  · unfold Build
    by_cases h : (env.exec (cpCmd j) none).err = none
    · simp [h]
    · simp [h]
  · intro e prog zipFileName fuel hb hn
    simp only [main, hn, hb]

/-- C4 when `ant` fails on the lab of `RuskLabOne.zip`: `main` ends in `log.Fatal` with
the error of `ant`. -/
theorem C4_build_error_witness :
    main envAntFails ["grade".toList, "RuskLabOne.zip".toList] 3 =
      some (.fatal { msg := "exit status 1".toList }) :=
  (C4_build_error envAntFails labRusk).2 { msg := "exit status 1".toList } "grade".toList
    "RuskLabOne.zip".toList 3 (by decide) (by decide)

/-- C4 as stated fails: when only `unzip` fails, `Build` returns nil. -/
theorem C4_counterexample :
    Build envUnzipFails labRusk = none ∧
    (envUnzipFails.exec (unzipCmd labRusk) none).err ≠ none := by
  decide

/-! ## The captured output -/

theorem writeActual_report (inputNum : Nat) (questionOutput : Str) (st : Run) :
    (writeActual inputNum questionOutput st).report =
      st.report ++ actualHeader inputNum ++ indent (truncatedOutput questionOutput) ++
        "\n\n\n".toList := by
  simp [writeActual, Run.writeString, actualHeader]

/-- The truncation keeps the whole buffer when it has at most 5000 elements, and its
first 5000 elements otherwise. -/
theorem truncatedOutput_eq (questionOutput : Str) :
    truncatedOutput questionOutput =
      (if questionOutput.length ≤ 5000 then questionOutput else questionOutput.take 5000) := by
  unfold truncatedOutput
  by_cases h : questionOutput.length ≤ 5000
  · rw [if_neg (by omega), if_pos h]
  · rw [if_pos (by omega), if_neg h]

theorem truncatedOutput_failed_short (o : Str) (h : o.length ≤ 4982) :
    truncatedOutput (o ++ failureMarker) = o ++ failureMarker := by
  have hm : failureMarker.length = 18 := rfl
  unfold truncatedOutput
  rw [if_neg (by rw [List.length_append, hm]; omega)]

theorem truncatedOutput_failed_long (o : Str) (h : 5000 ≤ o.length) :
    truncatedOutput (o ++ failureMarker) = o.take 5000 := by
  have hm : failureMarker.length = 18 := rfl
  unfold truncatedOutput
  rw [if_pos (by rw [List.length_append, hm]; omega), List.take_append_of_le_length h]

theorem truncatedOutput_long (o : Str) (h : 5000 ≤ o.length) :
    truncatedOutput o = o.take 5000 := by
  unfold truncatedOutput
  by_cases h1 : o.length > 5000
  · rw [if_pos h1]
  · rw [if_neg h1, List.take_of_length_le (by omega)]

/-! ## Claims about `indent` -/

theorem splitOn_cons_nl (t : Str) : ('\n' :: t).splitOn '\n' = [] :: t.splitOn '\n' := by
  simp [List.splitOn]

theorem splitOn_cons_other (c : Char) (t : Str) (hc : c ≠ '\n') :
    (c :: t).splitOn '\n' = (t.splitOn '\n').modifyHead (List.cons c) := by
  simp [List.splitOn, hc]

theorem splitOn_ne_nil (t : Str) : t.splitOn '\n' ≠ [] := List.splitOnP_ne_nil _ _

theorem splitOn_no_nl (t : Str) : ∀ l ∈ t.splitOn '\n', '\n' ∉ l := by
  induction t with
  | nil => simp
  | cons c r ih =>
    by_cases hc : c = '\n'
    · subst hc
      rw [splitOn_cons_nl]
      intro l hl
      rcases List.mem_cons.mp hl with h | h
      · simp [h]
      · exact ih l h
    · rw [splitOn_cons_other c r hc]
      cases hs : r.splitOn '\n' with
      | nil => simp
      | cons a as =>
        rw [hs] at ih
        intro l hl
        simp only [List.modifyHead_cons, List.mem_cons] at hl
        rcases hl with h | h
        · subst h
          intro hm
          rcases List.mem_cons.mp hm with h1 | h1
          · exact hc h1.symm
          · exact ih a (by simp) h1
        · exact ih l (by simp [h])

theorem intercalate_cons_cons (sep a b : Str) (ls : List Str) :
    sep.intercalate (a :: b :: ls) = a ++ sep ++ sep.intercalate (b :: ls) := by
  simp [List.intercalate, List.intersperse]

theorem intercalate_head_cons (sep : Str) (c : Char) (a : Str) (ls : List Str) :
    sep.intercalate ((c :: a) :: ls) = c :: sep.intercalate (a :: ls) := by
  cases ls with
  | nil => simp [List.intercalate, List.intersperse]
  | cons b bs => simp [List.intercalate, List.intersperse]

/-- The closed form of `indent` in terms of the lines of the text. -/
theorem indent_lines (text : Str) :
    indent text = [ '\n' ].intercalate ((text.splitOn '\n').map (fun l => '\t' :: l)) := by
  rw [indent_eq]
  induction text with
  | nil => rfl
  | cons c r ih =>
    by_cases hc : c = '\n'
    · subst hc
      rw [splitOn_cons_nl]
      cases hs : r.splitOn '\n' with
      | nil => exact absurd hs (splitOn_ne_nil r)
      | cons a as =>
        rw [hs] at ih
        simp only [List.map_cons] at ih ⊢
        rw [intercalate_cons_cons, ← ih]
        simp [tabAfterNL]
    · rw [splitOn_cons_other c r hc]
      cases hs : r.splitOn '\n' with
      | nil => exact absurd hs (splitOn_ne_nil r)
      | cons a as =>
        rw [hs] at ih
        simp only [List.map_cons, List.modifyHead_cons] at ih ⊢
        rw [intercalate_head_cons] at ih ⊢
        rw [intercalate_head_cons]
        simp only [tabAfterNL, if_neg hc]
        rw [List.cons.injEq] at ih
        rw [ih.2]

theorem tabAfterNL_length (text : Str) :
    (tabAfterNL text).length = text.length + text.count '\n' := by
  induction text with
  | nil => rfl
  | cons c r ih =>
    by_cases hc : c = '\n'
    · subst hc
      simp [tabAfterNL, ih]; omega
    · have : ('\n' == c) = false := by simpa using fun h => hc h.symm
      simp [tabAfterNL, hc, ih, List.count_cons, this]; omega

/-- C9: `indent` puts one tab in front of every line and changes nothing else. -/
theorem C9_indent :
    (∀ text : Str, indent text =
      [ '\n' ].intercalate ((text.splitOn '\n').map (fun l => '\t' :: l))) ∧
    indent [] = "\t".toList ∧
    indent "abc\ndef".toList = "\tabc\n\tdef".toList ∧
    (∀ text : Str, indent (text ++ "\n".toList) = indent text ++ "\n\t".toList) ∧
    (∀ text : Str, (indent text).length = text.length + (text.count '\n' + 1)) ∧
    (∀ text : Str, (indent text).splitOn '\n' = (text.splitOn '\n').map (fun l => '\t' :: l)) ∧
    (∀ text : Str, unindent (indent text) = text) := by
  have hsplit : ∀ text : Str,
      (indent text).splitOn '\n' = (text.splitOn '\n').map (fun l => '\t' :: l) := by
    intro text
    rw [indent_lines]
    apply List.splitOn_intercalate
    · intro l hl
      obtain ⟨a, ha, rfl⟩ := List.mem_map.mp hl
      intro hm
      rcases List.mem_cons.mp hm with h | h
      · exact absurd h (by decide)
      · exact splitOn_no_nl text a ha h
    · intro h
      exact splitOn_ne_nil text (List.map_eq_nil_iff.mp h)
  refine ⟨indent_lines, by decide, by decide, ?_, ?_, hsplit, ?_⟩
  · intro text
    rw [indent_eq, indent_eq, tabAfterNL_append]
    rfl
  · intro text
    rw [indent_eq, List.length_cons, tabAfterNL_length]
    omega
  · intro text
    unfold unindent
    rw [hsplit, List.map_map]
    have : (List.drop 1 ∘ fun l : Str => '\t' :: l) = id := by
      funext l; rfl
    rw [this, List.map_id]
    exact List.intercalate_splitOn text '\n'

/-! ## Claims about `runQuestion` -/

theorem questionRuns_append (a b : List Event) :
    questionRuns (a ++ b) = questionRuns a ++ questionRuns b := by
  simp [questionRuns]

theorem startCalls_append (a b : List Event) :
    startCalls (a ++ b) = startCalls a ++ startCalls b := by
  simp [startCalls]

theorem runInputScript_log (env : Env) (q i : Nat) (st : Run) :
    ∃ cs : List Cmd, (runInputScript env q i st).log = st.log ++ cs.map Event.script := by
  unfold runInputScript
  cases inputScript env q i with
  | error e => exact ⟨[], by simp⟩
  | ok c =>
    simp only
    split_ifs
    · exact ⟨[c], by simp [Run.writeString, Run.started]⟩
    · exact ⟨[c], by simp [Run.started]⟩

theorem runOutputScript_log (env : Env) (q i : Nat) (st : Run) :
    ∃ cs : List Cmd, (runOutputScript env q i st).log = st.log ++ cs.map Event.script := by
  unfold runOutputScript
  cases outputScript env q i with
  | error e => exact ⟨[], by simp⟩
  | ok c =>
    simp only
    split_ifs
    · exact ⟨[c], by simp [Run.writeString, Run.started]⟩
    · exact ⟨[c], by simp [Run.started]⟩

theorem questionRuns_scripts (cs : List Cmd) : questionRuns (cs.map Event.script) = [] := by
  induction cs with
  | nil => rfl
  | cons c t ih => simp [questionRuns]

theorem startCalls_scripts (cs : List Cmd) : startCalls (cs.map Event.script) = [] := by
  induction cs with
  | nil => rfl
  | cons c t ih => simp [startCalls]

theorem runInputScript_runs (env : Env) (q i : Nat) (st : Run) :
    questionRuns (runInputScript env q i st).log = questionRuns st.log := by
  obtain ⟨cs, h⟩ := runInputScript_log env q i st
  rw [h, questionRuns_append, questionRuns_scripts, List.append_nil]

theorem runInputScript_calls (env : Env) (q i : Nat) (st : Run) :
    startCalls (runInputScript env q i st).log = startCalls st.log := by
  obtain ⟨cs, h⟩ := runInputScript_log env q i st
  rw [h, startCalls_append, startCalls_scripts, List.append_nil]

theorem writeStdin_log (i : Nat) (input : Option Str) (st : Run) :
    (writeStdin i input st).log = st.log := by
  cases input <;> rfl

theorem writeExpected_log (env : Env) (q i : Nat) (st : Run) :
    (writeExpected env q i st).log = st.log := by
  unfold writeExpected
  cases outputFile env q i <;> rfl

/-- The log of one run: the call of `Start` with its outcome, then the output script. -/
theorem runInputBody_log (env : Env) (j : JavaLab) (q i : Nat) (input : Option Str) (st : Run) :
    ∃ cs : List Cmd, (runInputBody env j q i input st).log =
      st.log ++ [match env.start (questionCmd j q) with
                 | none => Event.question q i (questionCmd j q) input
                 | some _ => Event.notStarted q i (questionCmd j q)] ++
        cs.map Event.script := by
  unfold runInputBody
  simp only
  obtain ⟨cs, h⟩ := runOutputScript_log env q i
    (writeActual i (questionOutput env (questionCmd j q) input)
      (writeExpected env q i (writeStdin i input
        (match env.start (questionCmd j q) with
         | none => st.started (.question q i (questionCmd j q) input)
         | some _ => st.started (.notStarted q i (questionCmd j q))))))
  refine ⟨cs, ?_⟩
  rw [h]
  show (writeExpected env q i _).log ++ _ = _
  rw [writeExpected_log, writeStdin_log]
  cases env.start (questionCmd j q) <;> rfl

theorem runInputBody_runs (env : Env) (j : JavaLab) (q i : Nat) (input : Option Str) (st : Run) :
    questionRuns (runInputBody env j q i input st).log =
      questionRuns st.log ++
        (if env.start (questionCmd j q) = none then
          [Event.question q i (questionCmd j q) input] else []) := by
  obtain ⟨cs, h⟩ := runInputBody_log env j q i input st
  rw [h, questionRuns_append, questionRuns_append, questionRuns_scripts, List.append_nil]
  cases env.start (questionCmd j q) <;> simp [questionRuns]

theorem runInputBody_calls (env : Env) (j : JavaLab) (q i : Nat) (input : Option Str) (st : Run) :
    startCalls (runInputBody env j q i input st).log = startCalls st.log ++ [(q, i)] := by
  obtain ⟨cs, h⟩ := runInputBody_log env j q i input st
  rw [h, startCalls_append, startCalls_append, startCalls_scripts, List.append_nil]
  cases env.start (questionCmd j q) <;> simp [startCalls]

theorem inputsDone_runs (env : Env) (j : JavaLab) (q : Nat) (st : Run) : ∀ m : Nat,
    questionRuns (inputsDone env j q m st).log =
      questionRuns st.log ++
        (if env.start (questionCmd j q) = none then
          (List.range m).map (fun i =>
            Event.question q i (questionCmd j q) (inputFile env q i).toOption)
         else []) := by
  intro m
  induction m with
  | zero => simp [inputsDone]
  | succ m ih =>
    rw [inputsDone, runInputBody_runs, runInputScript_runs, ih, List.range_succ, List.map_append,
      List.append_assoc]
    by_cases hs : env.start (questionCmd j q) = none
    · simp [hs]
    · simp [hs]

theorem inputsDone_calls (env : Env) (j : JavaLab) (q : Nat) (st : Run) : ∀ m : Nat,
    startCalls (inputsDone env j q m st).log =
      startCalls st.log ++ (List.range m).map (fun i => (q, i)) := by
  intro m
  induction m with
  | zero => simp [inputsDone]
  | succ m ih =>
    rw [inputsDone, runInputBody_calls, runInputScript_calls, ih, List.range_succ,
      List.map_append, List.append_assoc]
    rfl

theorem writeGrading_eq (env : Env) (q : Nat) (st : Run) :
    writeGrading env q st = { report := st.report ++ gradingArea env q, log := st.log } := by
  unfold writeGrading gradingArea
  cases rubricFile env q <;> simp [Run.writeString]

theorem runQuestionDone_runs (env : Env) (j : JavaLab) (q k : Nat) (st : Run) :
    questionRuns (runQuestionDone env j q k st).log =
      questionRuns st.log ++
        (if env.start (questionCmd j q) = none then
          (List.range k).map (fun i =>
            Event.question q i (questionCmd j q) (inputFile env q i).toOption)
         else []) := by
  unfold runQuestionDone
  rw [writeGrading_eq]
  show questionRuns (runInputScript env q k _).log = _
  rw [runInputScript_runs, inputsDone_runs]

theorem runQuestionDone_calls (env : Env) (j : JavaLab) (q k : Nat) (st : Run) :
    startCalls (runQuestionDone env j q k st).log =
      startCalls st.log ++ (List.range k).map (fun i => (q, i)) := by
  unfold runQuestionDone
  rw [writeGrading_eq]
  show startCalls (runInputScript env q k _).log = _
  rw [runInputScript_calls, inputsDone_calls]

theorem runInput_of_pipe (env : Env) (j : JavaLab) (q i : Nat) (input : Option Str) (st : Run)
    (hpipe : env.stdinPipe (questionCmd j q) = none) :
    runInput env j q i input st = .done (runInputBody env j q i input st) := by
  unfold runInput
  rw [hpipe]

/-- When the pipe to standard input cannot be created, the run panics with the error. -/
theorem runInput_panics (env : Env) (j : JavaLab) (q i : Nat) (input : Option Str) (st : Run)
    (e : GoError) (hpipe : env.stdinPipe (questionCmd j q) = some e) :
    runInput env j q i input st = .panicked e.msg := by
  unfold runInput
  rw [hpipe]

/-- When the pipe to standard input cannot be created, `runQuestion` panics in its first
round: no grading area is written. -/
theorem runQuestion_panics (env : Env) (j : JavaLab) (q fuel : Nat) (st : Run) (e : GoError)
    (hpipe : env.stdinPipe (questionCmd j q) = some e) :
    runQuestion env j q (fuel + 1) st = some (.panicked e.msg) := by
  unfold runQuestion
  rw [runQuestionLoop]
  cases hin : inputFile env q 0 with
  | error x =>
    simp only
    rw [if_neg (by omega), runInput_panics env j q 0 none _ e hpipe]
  | ok t =>
    simp only
    rw [runInput_panics env j q 0 (some t) _ e hpipe]

/-- The loop over the inputs stops at the least missing input file `k ≥ 1`. -/
theorem runQuestionLoop_eq (env : Env) (j : JavaLab) (q k : Nat) (st : Run)
    (hk : 1 ≤ k) (hmiss : (inputFile env q k).toOption = none)
    (hread : ∀ i, 1 ≤ i → i < k → (inputFile env q i).toOption ≠ none)
    (hpipe : env.stdinPipe (questionCmd j q) = none) :
    ∀ (d i fuel : Nat), i + d = k → d < fuel →
      runQuestionLoop env j q fuel i (inputsDone env j q i st) =
        some (.done (runInputScript env q k (inputsDone env j q k st))) := by
  intro d
  induction d with
  | zero =>
    intro i fuel hi hf
    obtain ⟨f, rfl⟩ : ∃ f, fuel = f + 1 := ⟨fuel - 1, by omega⟩
    have hik : i = k := by omega
    subst hik
    rw [runQuestionLoop]
    cases hin : inputFile env q i with
    | error e => simp only; rw [if_pos (by omega)]
    | ok t => rw [hin] at hmiss; cases hmiss
  | succ d ih =>
    intro i fuel hi hf
    obtain ⟨f, rfl⟩ : ∃ f, fuel = f + 1 := ⟨fuel - 1, by omega⟩
    rw [runQuestionLoop]
    have hnext := ih (i + 1) f (by omega) (by omega)
    rw [inputsDone] at hnext
    cases hin : inputFile env q i with
    | error e =>
      have hi0 : ¬ i > 0 := by
        intro hpos
        exact hread i hpos (by omega) (by rw [hin]; rfl)
      simp only
      rw [if_neg hi0, runInput_of_pipe env j q i none _ hpipe]
      rw [hin] at hnext
      exact hnext
    | ok t =>
      simp only
      rw [runInput_of_pipe env j q i (some t) _ hpipe]
      rw [hin] at hnext
      exact hnext

/-- The closed form of `runQuestion` when the inputs end at `k` and the pipe can be
created. -/
theorem runQuestion_eq (env : Env) (j : JavaLab) (q k fuel : Nat) (st : Run)
    (hk : 1 ≤ k) (hmiss : (inputFile env q k).toOption = none)
    (hread : ∀ i, 1 ≤ i → i < k → (inputFile env q i).toOption ≠ none)
    (hpipe : env.stdinPipe (questionCmd j q) = none)
    (hfuel : k < fuel) :
    runQuestion env j q fuel st = some (.done (runQuestionDone env j q k st)) := by
  have hloop := runQuestionLoop_eq env j q k st hk hmiss hread hpipe k 0 fuel (by omega) hfuel
  unfold runQuestion
  rw [show st = inputsDone env j q 0 st from rfl, hloop]
  rfl

/-- C8 (as amended): with `k ≥ 1` the least input number whose file `q<N>in<k>.txt`
cannot be read, and when the pipe to standard input can be created, `runQuestion`
returns, having called `Start` exactly `k` times, for the inputs `0, 1, ..., k - 1` in
this order.  If the command can be started, these are `k` runs of the question program,
each with the text of its input file fed (nothing when the file is missing, which can
only be input 0); if it cannot, no run takes place.  Then the grading area is written
once: the rubric and a line feed if `q<N>rubric.txt` can be read, the default text
otherwise. -/
theorem C8_run_question (env : Env) (j : JavaLab) (q k fuel : Nat) (st : Run)
    (hk : 1 ≤ k) (hmiss : (inputFile env q k).toOption = none)
    (hread : ∀ i, 1 ≤ i → i < k → (inputFile env q i).toOption ≠ none)
    (hpipe : env.stdinPipe (questionCmd j q) = none)
    (hfuel : k < fuel) :
    runQuestion env j q fuel st = some (.done (runQuestionDone env j q k st)) ∧
    startCalls (runQuestionDone env j q k st).log =
      startCalls st.log ++ (List.range k).map (fun i => (q, i)) ∧
    (env.start (questionCmd j q) = none →
      questionRuns (runQuestionDone env j q k st).log =
        questionRuns st.log ++ (List.range k).map (fun i =>
          Event.question q i (questionCmd j q) (inputFile env q i).toOption)) ∧
    (env.start (questionCmd j q) ≠ none →
      questionRuns (runQuestionDone env j q k st).log = questionRuns st.log) ∧
    (runQuestionDone env j q k st).report =
      (runInputScript env q k (inputsDone env j q k st)).report ++ gradingArea env q ∧
    (∀ rubricText, rubricFile env q = .ok rubricText →
      gradingArea env q = rubricText ++ "\n".toList) ∧
    (∀ e, rubricFile env q = .error e →
      gradingArea env q = "\nPoints: TOGRADE\n".toList ++ "\nFeedback: TOGRADE\n\n".toList) := by
  refine ⟨runQuestion_eq env j q k fuel st hk hmiss hread hpipe hfuel,
    runQuestionDone_calls env j q k st, ?_, ?_, ?_, ?_, ?_⟩
  · intro hs
    rw [runQuestionDone_runs, if_pos hs]
  · intro hs
    rw [runQuestionDone_runs, if_neg hs, List.append_nil]
  · unfold runQuestionDone
    rw [writeGrading_eq]
  · intro r hr
    unfold gradingArea
    rw [hr]
  · intro e he
    unfold gradingArea
    rw [he]

/-- C8 for question 1 when `q1in0.txt` and `q1in1.txt` exist and `q1in2.txt` does not:
the question is run for the inputs 0 and 1. -/
theorem C8_run_question_witness :
    runQuestion envOneQuestion labRusk 1 3 { report := [], log := [] } =
      some (.done (runQuestionDone envOneQuestion labRusk 1 2 { report := [], log := [] })) ∧
    questionRuns (runQuestionDone envOneQuestion labRusk 1 2 { report := [], log := [] }).log =
      [Event.question 1 0 (questionCmd labRusk 1) (some "5\n".toList),
       Event.question 1 1 (questionCmd labRusk 1) (some "7\n".toList)] :=
  have h := C8_run_question envOneQuestion labRusk 1 2 3 { report := [], log := [] }
    (by decide) (by decide)
    (fun i h1 h2 => by
      have hi : i = 1 := by omega
      subst hi
      decide)
    rfl (by decide)
  ⟨h.1, h.2.2.1 rfl⟩

/-- C8 as stated fails: no input file can be read, so `k = 1` and the claim has the
question program executed once; the `java` command cannot be started, `runQuestion`
calls `Start` once, no process runs, and only the failure marker is written.  And when
the pipe to standard input cannot be created, `runQuestion` panics: nothing is executed
and no grading area is written. -/
theorem C8_counterexample :
    runQuestion envNoJava labRusk 1 2 { report := [], log := [] } =
      some (.done
        { report := ("\n## Actual Execution Output #0\n\t\n\tExecution failed.\n\n\n" ++
            "\nPoints: TOGRADE\n\nFeedback: TOGRADE\n\n").toList,
          log := [Event.notStarted 1 0 (questionCmd labRusk 1)] }) ∧
    (inputFile envNoJava 1 1).toOption = none ∧
    questionRuns [Event.notStarted 1 0 (questionCmd labRusk 1)] = [] ∧
    runQuestion envNoPipe labRusk 1 3 { report := [], log := [] } =
      some (.panicked "too many open files".toList) := by
  decide

/-! ## Claims about `RunAndReport` -/

theorem writeSource_log (src name : Str) (st : Run) : (writeSource src name st).log = st.log :=
  rfl

theorem writePackageFile_log (env : Env) (dir : Str) (st : Run) (f : FileInfo) :
    (writePackageFile env dir st f).log = st.log := by
  unfold writePackageFile
  split_ifs
  · cases env.readFile (dir ++ "/".toList ++ f.name) <;> rfl
  · rfl
  · rfl

theorem foldl_writePackageFile_log (env : Env) (dir : Str) (infos : List FileInfo) :
    ∀ st : Run, (infos.foldl (writePackageFile env dir) st).log = st.log := by
  induction infos with
  | nil => intro st; rfl
  | cons f fs ih =>
    intro st
    rw [List.foldl_cons, ih, writePackageFile_log]

theorem headerDone_log (env : Env) (j : JavaLab) (q : Nat) (st : Run) :
    (headerDone env j q st).log = st.log := by
  unfold headerDone
  cases env.readFile (getQuestionFile j q) <;> rfl

theorem packageDone_log (env : Env) (j : JavaLab) (q : Nat) (st : Run) :
    (packageDone env j q st).log = st.log := by
  unfold packageDone
  cases env.readDir (getQuestionPackagePath j q) with
  | error e => rfl
  | ok infos => exact foldl_writePackageFile_log env _ infos st

theorem questionDone_runs (env : Env) (j : JavaLab) (k q : Nat) (st : Run) :
    questionRuns (questionDone env j k q st).log =
      questionRuns st.log ++
        (if env.start (questionCmd j q) = none then
          (List.range k).map (fun i =>
            Event.question q i (questionCmd j q) (inputFile env q i).toOption)
         else []) := by
  unfold questionDone
  rw [runQuestionDone_runs, packageDone_log, headerDone_log]

theorem questionDone_calls (env : Env) (j : JavaLab) (k q : Nat) (st : Run) :
    startCalls (questionDone env j k q st).log =
      startCalls st.log ++ (List.range k).map (fun i => (q, i)) := by
  unfold questionDone
  rw [runQuestionDone_calls, packageDone_log, headerDone_log]

theorem questionsDone_runs (env : Env) (j : JavaLab) (K : Nat → Nat) (st : Run) : ∀ m : Nat,
    questionRuns (questionsDone env j K m st).log =
      questionRuns st.log ++ (List.range' 1 m).flatMap (fun q =>
        if env.start (questionCmd j q) = none then
          (List.range (K q)).map (fun i =>
            Event.question q i (questionCmd j q) (inputFile env q i).toOption)
        else []) := by
  intro m
  induction m with
  | zero => simp [questionsDone]
  | succ m ih =>
    rw [questionsDone, questionDone_runs, ih, List.range'_1_concat, List.flatMap_append,
      List.append_assoc]
    simp [Nat.add_comm]

theorem questionsDone_calls (env : Env) (j : JavaLab) (K : Nat → Nat) (st : Run) : ∀ m : Nat,
    startCalls (questionsDone env j K m st).log =
      startCalls st.log ++ (List.range' 1 m).flatMap (fun q =>
        (List.range (K q)).map (fun i => (q, i))) := by
  intro m
  induction m with
  | zero => simp [questionsDone]
  | succ m ih =>
    rw [questionsDone, questionDone_calls, ih, List.range'_1_concat, List.flatMap_append,
      List.append_assoc]
    simp [Nat.add_comm]

/-- The loop over the questions stops at the least `n ≥ 1` whose question file cannot be
read or whose package directory cannot be listed. -/
theorem questionsLoop_eq (env : Env) (j : JavaLab) (K : Nat → Nat) (n inner : Nat) (st : Run)
    (hq : ∀ q, 1 ≤ q → q < n →
      (env.readFile (getQuestionFile j q)).toOption ≠ none ∧
      (env.readDir (getQuestionPackagePath j q)).toOption ≠ none)
    (hstop : (env.readFile (getQuestionFile j n)).toOption = none ∨
      (env.readDir (getQuestionPackagePath j n)).toOption = none)
    (hK : ∀ q, 1 ≤ q → q < n → 1 ≤ K q ∧ (inputFile env q (K q)).toOption = none ∧
      ∀ i, 1 ≤ i → i < K q → (inputFile env q i).toOption ≠ none)
    (hpipe : ∀ q, 1 ≤ q → q < n → env.stdinPipe (questionCmd j q) = none)
    (hinner : ∀ q, 1 ≤ q → q < n → K q < inner) :
    ∀ (d m fuel : Nat), m + 1 + d = n → d < fuel →
      questionsLoop env j inner fuel (m + 1) (questionsDone env j K m st) =
        some (.done (headerDone env j n (questionsDone env j K (n - 1) st))) := by
  intro d
  induction d with
  | zero =>
    intro m fuel hm hf
    obtain ⟨f, rfl⟩ : ∃ f, fuel = f + 1 := ⟨fuel - 1, by omega⟩
    have hmn : m + 1 = n := by omega
    subst hmn
    rw [questionsLoop]
    unfold headerDone
    simp only [Nat.add_sub_cancel]
    cases hf : env.readFile (getQuestionFile j (m + 1)) with
    | error e => rfl
    | ok src =>
      simp only
      cases hd : env.readDir (getQuestionPackagePath j (m + 1)) with
      | error e => rfl
      | ok infos =>
        rw [hf, hd] at hstop
        rcases hstop with h | h <;> cases h
  | succ d ih =>
    intro m fuel hm hf
    obtain ⟨f, rfl⟩ : ∃ f, fuel = f + 1 := ⟨fuel - 1, by omega⟩
    have hlt : m + 1 < n := by omega
    obtain ⟨hfile, hdir⟩ := hq (m + 1) (by omega) hlt
    obtain ⟨hK1, hK2, hK3⟩ := hK (m + 1) (by omega) hlt
    have hnext := ih (m + 1) f (by omega) (by omega)
    rw [questionsDone, questionDone, headerDone, packageDone] at hnext
    rw [questionsLoop]
    cases hf : env.readFile (getQuestionFile j (m + 1)) with
    | error e => rw [hf] at hfile; exact absurd rfl hfile
    | ok src =>
      cases hd : env.readDir (getQuestionPackagePath j (m + 1)) with
      | error e => rw [hd] at hdir; exact absurd rfl hdir
      | ok infos =>
        simp only
        rw [hf, hd] at hnext
        simp only at hnext
        rw [hd]
        simp only
        rw [runQuestion_eq env j (m + 1) (K (m + 1)) inner _ hK1 hK2 hK3
          (hpipe (m + 1) (by omega) hlt) (hinner (m + 1) (by omega) hlt)]
        exact hnext

/-- The closed form of `RunAndReport` when its loop stops at question `n` and every
pipe can be created. -/
theorem RunAndReport_eq (env : Env) (j : JavaLab) (K : Nat → Nat) (n fuel : Nat)
    (hn : 1 ≤ n)
    (hq : ∀ q, 1 ≤ q → q < n →
      (env.readFile (getQuestionFile j q)).toOption ≠ none ∧
      (env.readDir (getQuestionPackagePath j q)).toOption ≠ none)
    (hstop : (env.readFile (getQuestionFile j n)).toOption = none ∨
      (env.readDir (getQuestionPackagePath j n)).toOption = none)
    (hK : ∀ q, 1 ≤ q → q < n → 1 ≤ K q ∧ (inputFile env q (K q)).toOption = none ∧
      ∀ i, 1 ≤ i → i < K q → (inputFile env q i).toOption ≠ none)
    (hpipe : ∀ q, 1 ≤ q → q < n → env.stdinPipe (questionCmd j q) = none)
    (hfuel : n ≤ fuel) (hinner : ∀ q, 1 ≤ q → q < n → K q < fuel) :
    RunAndReport env j fuel =
      some (.done { gradeReportName := gradeReportName j,
                    err := env.create (gradeReportName j),
                    run := reportDone env j K n }) := by
  obtain ⟨m, rfl⟩ : ∃ m, n = m + 1 := ⟨n - 1, by omega⟩
  have hloop := questionsLoop_eq env j K (m + 1) fuel { report := [], log := [] } hq hstop hK
    hpipe hinner m 0 fuel (by omega) (by omega)
  unfold RunAndReport
  rw [show ({ report := [], log := [] } : Run) =
    questionsDone env j K 0 { report := [], log := [] } from rfl, hloop]
  rfl

/-! ## What each step writes -/

theorem writeSource_report (src name : Str) (st : Run) :
    (writeSource src name st).report =
      st.report ++ ("## ".toList ++ name ++ " Source Code\n".toList ++ "\n".toList ++
        indent src ++ "\n".toList) := by
  simp [writeSource, Run.writeString]

theorem writePackageFile_report (env : Env) (dir : Str) (st : Run) (f : FileInfo) :
    ∃ x, (writePackageFile env dir st f).report = st.report ++ x := by
  unfold writePackageFile
  split_ifs
  · cases env.readFile (dir ++ "/".toList ++ f.name) with
    | error e => exact ⟨[], by simp⟩
    | ok src => exact ⟨_, writeSource_report src f.name st⟩
  · exact ⟨[], by simp⟩
  · exact ⟨[], by simp⟩

theorem foldl_writePackageFile_report (env : Env) (dir : Str) (infos : List FileInfo) :
    ∀ st : Run, ∃ x, (infos.foldl (writePackageFile env dir) st).report = st.report ++ x := by
  induction infos with
  | nil => intro st; exact ⟨[], by simp⟩
  | cons f fs ih =>
    intro st
    obtain ⟨x, hx⟩ := writePackageFile_report env dir st f
    obtain ⟨y, hy⟩ := ih (writePackageFile env dir st f)
    exact ⟨x ++ y, by rw [List.foldl_cons, hy, hx, List.append_assoc]⟩

theorem packageDone_report (env : Env) (j : JavaLab) (q : Nat) (st : Run) :
    ∃ x, (packageDone env j q st).report = st.report ++ x := by
  unfold packageDone
  cases env.readDir (getQuestionPackagePath j q) with
  | error e => exact ⟨[], by simp⟩
  | ok infos => exact foldl_writePackageFile_report env _ infos st

theorem runInputScript_report (env : Env) (q i : Nat) (st : Run) :
    (runInputScript env q i st).report = st.report ++ inputScriptText env q i := by
  unfold runInputScript inputScriptText
  cases inputScript env q i with
  | error e => simp
  | ok c =>
    simp only
    split_ifs
    · simp [Run.writeString, Run.started]
    · simp [Run.started]

theorem runOutputScript_report (env : Env) (q i : Nat) (st : Run) :
    (runOutputScript env q i st).report = st.report ++ outputScriptText env q i := by
  unfold runOutputScript outputScriptText
  cases outputScript env q i with
  | error e => simp
  | ok c =>
    simp only
    split_ifs
    · simp [Run.writeString, Run.started]
    · simp [Run.started]

theorem writeStdin_report (i : Nat) (input : Option Str) (st : Run) :
    (writeStdin i input st).report = st.report ++ stdinText i input := by
  cases input with
  | none => simp [writeStdin, stdinText]
  | some t => simp [writeStdin, stdinText, Run.writeString]

theorem writeExpected_report (env : Env) (q i : Nat) (st : Run) :
    (writeExpected env q i st).report = st.report ++ expectedText env q i := by
  unfold writeExpected expectedText
  cases outputFile env q i with
  | error e => simp
  | ok t => simp [Run.writeString]

/-- What one run of the question program writes: the input text, the expected output,
then under the header `## Actual Execution Output` the indented truncation of the buffer
and three line feeds, then the text of the output script. -/
theorem runInputBody_report (env : Env) (j : JavaLab) (q i : Nat) (input : Option Str)
    (st : Run) :
    (runInputBody env j q i input st).report =
      st.report ++ stdinText i input ++ expectedText env q i ++ actualHeader i ++
        indent (truncatedOutput (questionOutput env (questionCmd j q) input)) ++
        "\n\n\n".toList ++ outputScriptText env q i := by
  unfold runInputBody
  simp only
  rw [runOutputScript_report, writeActual_report, writeExpected_report, writeStdin_report]
  cases env.start (questionCmd j q) <;> simp [Run.started]

theorem inputsDone_report (env : Env) (j : JavaLab) (q : Nat) (st : Run) : ∀ m : Nat,
    ∃ x, (inputsDone env j q m st).report = st.report ++ x := by
  intro m
  induction m with
  | zero => exact ⟨[], by simp [inputsDone]⟩
  | succ m ih =>
    obtain ⟨x, hx⟩ := ih
    refine ⟨x ++ inputScriptText env q m ++ (stdinText m (inputFile env q m).toOption ++
      expectedText env q m ++ actualHeader m ++
      indent (truncatedOutput (questionOutput env (questionCmd j q)
        (inputFile env q m).toOption)) ++ "\n\n\n".toList ++ outputScriptText env q m), ?_⟩
    rw [inputsDone, runInputBody_report, runInputScript_report, hx]
    simp only [List.append_assoc]

/-- A whole round for a readable question file starts with the header of the question
and its indented source. -/
theorem questionDone_report (env : Env) (j : JavaLab) (k q : Nat) (st : Run) (src : Str)
    (hsrc : env.readFile (getQuestionFile j q) = .ok src) :
    ∃ rest, (questionDone env j k q st).report =
      st.report ++ ("# Question ".toList ++ decimal q ++ "\n".toList) ++
        ("## ".toList ++ ("Question".toList ++ decimal q ++ ".java".toList) ++
          " Source Code\n".toList ++ "\n".toList ++ indent src ++ "\n".toList) ++ rest := by
  unfold questionDone runQuestionDone
  rw [writeGrading_eq]
  obtain ⟨b, hb⟩ := inputsDone_report env j q (packageDone env j q (headerDone env j q st)) k
  obtain ⟨c, hc⟩ := packageDone_report env j q (headerDone env j q st)
  have hh : (headerDone env j q st).report =
      st.report ++ ("# Question ".toList ++ decimal q ++ "\n".toList) ++
        ("## ".toList ++ ("Question".toList ++ decimal q ++ ".java".toList) ++
          " Source Code\n".toList ++ "\n".toList ++ indent src ++ "\n".toList) := by
    unfold headerDone
    rw [hsrc]
    simp only [writeQuestionHeader, writeSource_report, Run.writeString]
  refine ⟨c ++ b ++ inputScriptText env q k ++ gradingArea env q, ?_⟩
  show (runInputScript env q k _).report ++ gradingArea env q = _
  rw [runInputScript_report, hb, hc, hh]
  simp only [List.append_assoc]

/-- C5 (as amended): let `n ≥ 1` be the least number whose `Question<n>.java` cannot be
read or whose package directory `q<n>` cannot be listed, let `K q` be the number of
inputs of question `q`, and let every pipe to standard input be creatable.  Then
`RunAndReport` returns; every question `1, ..., n - 1` has its header and source written
and is run (`Start` is called for each of its inputs, and starts the program when the
command can be started), in increasing order; question `n` is not run and no later
question is written or run; the report ends with the Summary block. -/
theorem C5_run_and_report (env : Env) (j : JavaLab) (K : Nat → Nat) (n fuel : Nat)
    (hn : 1 ≤ n)
    (hq : ∀ q, 1 ≤ q → q < n →
      (env.readFile (getQuestionFile j q)).toOption ≠ none ∧
      (env.readDir (getQuestionPackagePath j q)).toOption ≠ none)
    (hstop : (env.readFile (getQuestionFile j n)).toOption = none ∨
      (env.readDir (getQuestionPackagePath j n)).toOption = none)
    (hK : ∀ q, 1 ≤ q → q < n → 1 ≤ K q ∧ (inputFile env q (K q)).toOption = none ∧
      ∀ i, 1 ≤ i → i < K q → (inputFile env q i).toOption ≠ none)
    (hpipe : ∀ q, 1 ≤ q → q < n → env.stdinPipe (questionCmd j q) = none)
    (hfuel : n ≤ fuel) (hinner : ∀ q, 1 ≤ q → q < n → K q < fuel) :
    RunAndReport env j fuel =
      some (.done { gradeReportName := gradeReportName j,
                    err := env.create (gradeReportName j),
                    run := reportDone env j K n }) ∧
    startCalls (reportDone env j K n).log =
      (List.range' 1 (n - 1)).flatMap (fun q => (List.range (K q)).map (fun i => (q, i))) ∧
    questionRuns (reportDone env j K n).log =
      (List.range' 1 (n - 1)).flatMap (fun q =>
        if env.start (questionCmd j q) = none then
          (List.range (K q)).map (fun i =>
            Event.question q i (questionCmd j q) (inputFile env q i).toOption)
        else []) ∧
    (reportDone env j K n).report =
      (headerDone env j n (questionsDone env j K (n - 1) { report := [], log := [] })).report ++
        summaryBlock ∧
    (∀ (q : Nat) (st : Run) (src : Str), env.readFile (getQuestionFile j q) = .ok src →
      ∃ rest, (questionDone env j (K q) q st).report =
        st.report ++ ("# Question ".toList ++ decimal q ++ "\n".toList) ++
          ("## ".toList ++ ("Question".toList ++ decimal q ++ ".java".toList) ++
            " Source Code\n".toList ++ "\n".toList ++ indent src ++ "\n".toList) ++ rest) ∧
    (∀ st : Run, (env.readFile (getQuestionFile j n)).toOption = none →
      headerDone env j n st = st) := by
  refine ⟨RunAndReport_eq env j K n fuel hn hq hstop hK hpipe hfuel hinner, ?_, ?_, ?_, ?_, ?_⟩
  · show startCalls (headerDone env j n _).log = _
    rw [headerDone_log, questionsDone_calls]
    rfl
  · show questionRuns (headerDone env j n _).log = _
    rw [headerDone_log, questionsDone_runs]
    rfl
  · simp [reportDone, Run.writeString, summaryBlock]
  · intro q st src hsrc
    exact questionDone_report env j (K q) q st src hsrc
  · intro st h
    unfold headerDone
    cases hf : env.readFile (getQuestionFile j n) with
    | error e => rfl
    | ok src => rw [hf] at h; cases h

/-- C5 on a lab with one question that has two inputs: the loop stops at question 2,
question 1 is run for the inputs 0 and 1. -/
theorem C5_run_and_report_witness :
    RunAndReport envOneQuestion labRusk 3 =
      some (.done { gradeReportName := gradeReportName labRusk,
                    err := envOneQuestion.create (gradeReportName labRusk),
                    run := reportDone envOneQuestion labRusk (fun _ => 2) 2 }) ∧
    startCalls (reportDone envOneQuestion labRusk (fun _ => 2) 2).log = [(1, 0), (1, 1)] :=
  have h := C5_run_and_report envOneQuestion labRusk (fun _ => 2) 2 3 (by decide)
    (fun q h1 h2 => by
      have hq : q = 1 := by omega
      subst hq
      decide)
    (Or.inl (by decide))
    (fun q h1 h2 => by
      have hq : q = 1 := by omega
      subst hq
      refine ⟨by decide, by decide, fun i h3 h4 => ?_⟩
      have h5 : i < 2 := h4
      have hi : i = 1 := by omega
      subst hi
      decide)
    (fun _ _ _ => rfl)
    (by decide) (fun _ _ _ => show 2 < 3 by decide)
  ⟨h.1, h.2.1⟩

/-- C5 as stated fails: `Question1.java` can be read and `Question2.java` cannot, so the
claim has question 1 run; its package directory cannot be listed, and the loop stops
after the header and source of question 1, without running it.  And when the pipe to
standard input cannot be created, `RunAndReport` panics in question 1: no Summary block
is written. -/
theorem C5_counterexample :
    RunAndReport envNoPackage labRusk 3 =
      some (.done
        { gradeReportName := "output/RuskLabOne.md".toList,
          err := none,
          run := { report := ("# Question 1\n## Question1.java Source Code\n\n" ++
                     "\tclass Question1 \x7b\x7d\n" ++
                     "\n\n# Summary\n\n Total Points: TOGRADE\n").toList,
                   log := [] } }) ∧
    (envNoPackage.readFile (getQuestionFile labRusk 1)).toOption ≠ none ∧
    (envNoPackage.readFile (getQuestionFile labRusk 2)).toOption = none ∧
    RunAndReport envNoPipe labRusk 3 = some (.panicked "too many open files".toList) := by
  decide

/-! ## The path of the report -/

/-- C7: for a lab built by `New` from an archive named `base ++ ".zip"`, `RunAndReport`
creates the path `"output/" ++ base ++ ".md"`: when its loop stops at a question `n` (and
every pipe can be created) it returns the report under that name, the error being that of
`os.Create` on that path. -/
theorem C7_report_path (env : Env) (base sec : Str) (j : JavaLab)
    (h : New env (base ++ ".zip".toList) sec = .ok j)
    (env2 : Env) (K : Nat → Nat) (n fuel : Nat) (hn : 1 ≤ n)
    (hq : ∀ q, 1 ≤ q → q < n →
      (env2.readFile (getQuestionFile j q)).toOption ≠ none ∧
      (env2.readDir (getQuestionPackagePath j q)).toOption ≠ none)
    (hstop : (env2.readFile (getQuestionFile j n)).toOption = none ∨
      (env2.readDir (getQuestionPackagePath j n)).toOption = none)
    (hK : ∀ q, 1 ≤ q → q < n → 1 ≤ K q ∧ (inputFile env2 q (K q)).toOption = none ∧
      ∀ i, 1 ≤ i → i < K q → (inputFile env2 q i).toOption ≠ none)
    (hpipe : ∀ q, 1 ≤ q → q < n → env2.stdinPipe (questionCmd j q) = none)
    (hfuel : n ≤ fuel) (hinner : ∀ q, 1 ≤ q → q < n → K q < fuel) :
    gradeReportName j = "output/".toList ++ base ++ ".md".toList ∧
    RunAndReport env2 j fuel =
      some (.done { gradeReportName := "output/".toList ++ base ++ ".md".toList,
                    err := env2.create ("output/".toList ++ base ++ ".md".toList),
                    run := reportDone env2 j K n }) := by
  have he := extractPath_of_zip env base sec j h
  have hg : gradeReportName j = "output/".toList ++ base ++ ".md".toList := by
    unfold gradeReportName; rw [he]
  refine ⟨hg, ?_⟩
  rw [RunAndReport_eq env2 j K n fuel hn hq hstop hK hpipe hfuel hinner, hg]

/-- C7, the example: the lab of `RuskLabOne.zip` gives `output/RuskLabOne.md`. -/
theorem C7_report_path_witness :
    gradeReportName labRusk = "output/RuskLabOne.md".toList ∧
    RunAndReport envOneQuestion labRusk 3 =
      some (.done { gradeReportName := "output/RuskLabOne.md".toList,
                    err := envOneQuestion.create ("output/RuskLabOne.md".toList),
                    run := reportDone envOneQuestion labRusk (fun _ => 2) 2 }) :=
  C7_report_path envQuiet "RuskLabOne".toList "secpolicy".toList labRusk (by decide)
    envOneQuestion (fun _ => 2) 2 3 (by decide)
    (fun q h1 h2 => by
      have hq : q = 1 := by omega
      subst hq
      decide)
    (Or.inl (by decide))
    (fun q h1 h2 => by
      have hq : q = 1 := by omega
      subst hq
      refine ⟨by decide, by decide, fun i h3 h4 => ?_⟩
      have h5 : i < 2 := h4
      have hi : i = 1 := by omega
      subst hi
      decide)
    (fun _ _ _ => rfl)
    (by decide) (fun _ _ _ => show 2 < 3 by decide)

/-! ## Claims about the captured output -/

theorem utf8Bytes_replicate_x (n : Nat) :
    utf8Bytes (List.replicate n 'x') = List.replicate n 'x' := by
  induction n with
  | zero => rfl
  | succ n ih =>
    rw [List.replicate_succ]
    show utf8Char 'x' ++ utf8Bytes (List.replicate n 'x') = _
    rw [ih]
    rfl

theorem accentOutput_eq :
    accentOutput = List.replicate 4999 'x' ++ [Char.ofNat 195, Char.ofNat 169] := by
  unfold accentOutput utf8Bytes
  rw [List.flatMap_append]
  have := utf8Bytes_replicate_x 4999
  unfold utf8Bytes at this
  rw [this]
  rfl

theorem truncatedOutput_accent :
    truncatedOutput accentOutput = List.replicate 4999 'x' ++ [Char.ofNat 195] := by
  have hl : (List.replicate 4999 'x' : Str).length = 4999 := List.length_replicate _ _
  rw [accentOutput_eq]
  unfold truncatedOutput
  rw [if_pos (by rw [List.length_append, hl]; decide)]
  have h5 : (5000 : Nat) = (List.replicate 4999 'x' : Str).length + 1 := by rw [hl]
  rw [h5, List.take_append]
  rfl

theorem indent_accent :
    indent (List.replicate 4999 'x' ++ [Char.ofNat 195]) =
      '\t' :: (List.replicate 4999 'x' ++ [Char.ofNat 195]) := by
  rw [indent_eq, tabAfterNL_noNL]
  intro c hc
  rcases List.mem_append.mp hc with h | h
  · rw [List.eq_of_mem_replicate h]; decide
  · rw [List.mem_singleton.mp h]; decide

/-- C6, the failing input: the question program prints 4999 times `x` and then e-acute,
5000 characters in 5001 bytes.  The output has at most 5000 characters, yet what
`runQuestion` writes under the header is not the whole output: it is the indented first
5000 bytes, which end with the first byte of the e-acute. -/
theorem C6_cut_inside_character :
    (List.replicate 4999 'x' ++ ['\u00e9']).length = 5000 ∧
    accentOutput = utf8Bytes (List.replicate 4999 'x' ++ ['\u00e9']) ∧
    accentOutput.length = 5001 ∧
    runInput envAccent labRusk 1 0 none { report := [], log := [] } =
      .done { report := "\n## Actual Execution Output #0\n".toList ++
                ('\t' :: (List.replicate 4999 'x' ++ [Char.ofNat 195])) ++ "\n\n\n".toList,
              log := [Event.question 1 0 (questionCmd labRusk 1) none] } ∧
    List.replicate 4999 'x' ++ [Char.ofNat 195] ≠ accentOutput := by
  have hl : (List.replicate 4999 'x' : Str).length = 4999 := List.length_replicate _ _
  refine ⟨?_, rfl, ?_, ?_, ?_⟩
  · rw [List.length_append, hl]; rfl
  · rw [accentOutput_eq, List.length_append, hl]; rfl
  · have hbody : runInputBody envAccent labRusk 1 0 none { report := [], log := [] } =
        writeActual 0 accentOutput
          { report := [], log := [Event.question 1 0 (questionCmd labRusk 1) none] } := rfl
    rw [runInput_of_pipe envAccent labRusk 1 0 none _ rfl, hbody]
    unfold writeActual
    rw [truncatedOutput_accent, indent_accent]
    rfl
  · rw [accentOutput_eq]
    intro h
    have := congrArg List.length h
    rw [List.length_append, List.length_append, hl] at this
    exact absurd this (by decide)

theorem indent_failed (o : Str) :
    indent (o ++ failureMarker) = indent o ++ "\n\tExecution failed.".toList := by
  rw [indent_eq, indent_eq, tabAfterNL_append]
  rfl

theorem questionOutput_failingRun (env : Env) (cmd : Cmd) (input : Option Str) (o : Str)
    (e : GoError) (hstart : env.start cmd = none) :
    questionOutput (failingRun env o e) cmd input = o ++ failureMarker := by
  unfold questionOutput
  rw [show (failingRun env o e).start cmd = env.start cmd from rfl, hstart]
  rfl

theorem questionOutput_passingRun (env : Env) (cmd : Cmd) (input : Option Str) (o : Str)
    (hstart : env.start cmd = none) :
    questionOutput (passingRun env o) cmd input = o := by
  unfold questionOutput
  rw [show (passingRun env o).start cmd = env.start cmd from rfl, hstart]
  rfl

/-- C10 (as amended): the marker has 18 elements and is appended to the captured output
before the truncation, and the truncated text is indented before it is written.  After a
failed run with output `o` of at most 4982 elements, the text written under
`## Actual Execution Output` is the indented output followed by the indented line of the
marker, a line feed, a tab and `Execution failed.`; when `o` has at least 5000 elements
it is the indented first 5000 elements of `o`, and the whole run leaves exactly what a
successful run with the same output leaves. -/
theorem C10_marker_truncated (env : Env) (j : JavaLab) (q i : Nat) (input : Option Str)
    (st : Run) (o : Str) (e : GoError)
    (hpipe : env.stdinPipe (questionCmd j q) = none)
    (hstart : env.start (questionCmd j q) = none) :
    failureMarker.length = 18 ∧
    runInput (failingRun env o e) j q i input st =
      .done (runInputBody (failingRun env o e) j q i input st) ∧
    (o.length ≤ 4982 →
      (runInputBody (failingRun env o e) j q i input st).report =
        st.report ++ stdinText i input ++ expectedText env q i ++ actualHeader i ++
          (indent o ++ "\n\tExecution failed.".toList) ++ "\n\n\n".toList ++
          outputScriptText env q i) ∧
    (5000 ≤ o.length →
      (runInputBody (failingRun env o e) j q i input st).report =
        st.report ++ stdinText i input ++ expectedText env q i ++ actualHeader i ++
          indent (o.take 5000) ++ "\n\n\n".toList ++ outputScriptText env q i ∧
      runInput (failingRun env o e) j q i input st =
        runInput (passingRun env o) j q i input st) := by
  have hf := questionOutput_failingRun env (questionCmd j q) input o e hstart
  have hp := questionOutput_passingRun env (questionCmd j q) input o hstart
  have hrep := runInputBody_report (failingRun env o e) j q i input st
  rw [hf] at hrep
  refine ⟨rfl, runInput_of_pipe (failingRun env o e) j q i input st hpipe, ?_, ?_⟩
  · intro h
    rw [hrep, truncatedOutput_failed_short o h, indent_failed]
    rfl
  · intro h
    refine ⟨?_, ?_⟩
    · rw [hrep, truncatedOutput_failed_long o h]
      rfl
    · rw [runInput_of_pipe (failingRun env o e) j q i input st hpipe,
        runInput_of_pipe (passingRun env o) j q i input st hpipe]
      congr 1
      show runOutputScript env q i (writeActual i
          (questionOutput (failingRun env o e) (questionCmd j q) input) _) =
        runOutputScript env q i (writeActual i
          (questionOutput (passingRun env o) (questionCmd j q) input) _)
      unfold writeActual
      rw [hf, hp, truncatedOutput_failed_long o h, truncatedOutput_long o h]
      rfl

/-- C10 at the empty output and at an output of 5000 elements. -/
theorem C10_marker_truncated_witness :
    (runInputBody (failingRun envBare [] { msg := [] }) labRusk 1 0 none
        { report := [], log := [] }).report =
      [] ++ stdinText 0 none ++ expectedText envBare 1 0 ++ actualHeader 0 ++
        (indent [] ++ "\n\tExecution failed.".toList) ++ "\n\n\n".toList ++
        outputScriptText envBare 1 0 ∧
    runInput (failingRun envBare (List.replicate 5000 'x') { msg := [] }) labRusk 1 0 none
        { report := [], log := [] } =
      runInput (passingRun envBare (List.replicate 5000 'x')) labRusk 1 0 none
        { report := [], log := [] } :=
  ⟨(C10_marker_truncated envBare labRusk 1 0 none { report := [], log := [] } []
      { msg := [] } rfl rfl).2.2.1 (by decide),
   ((C10_marker_truncated envBare labRusk 1 0 none { report := [], log := [] }
      (List.replicate 5000 'x') { msg := [] } rfl rfl).2.2.2
        (by rw [List.length_replicate])).2⟩

/-- C10 as stated fails: after a failed run that printed `boom`, the text written under
the header is `boom` and the marker indented; the marker itself, a line feed followed by
`Execution failed.`, is not a suffix of it. -/
theorem C10_counterexample :
    runInput envBoom labRusk 1 0 none { report := [], log := [] } =
      .done { report := ("\n## Actual Execution Output #0\n" ++
                "\tboom\n\tExecution failed." ++ "\n\n\n").toList,
              log := [Event.question 1 0 (questionCmd labRusk 1) none] } ∧
    indent (truncatedOutput (questionOutput envBoom (questionCmd labRusk 1) none)) =
      "\tboom\n\tExecution failed.".toList ∧
    ¬ failureMarker <:+ "\tboom\n\tExecution failed.".toList ∧
    "boom".toList.length ≤ 4982 := by
  decide

end Autograde
